import Mathlib

/-!
# Verification of the CRM record-management layer (`crm_logic.py`)

This file gives a shallow embedding of the data-consistency and
record-management layer of the repository: the `CRMAgent` static methods
`load_data`, `save_data`, `add_customer`, `update_customer`,
`delete_customer` and `search_records` from `src/crm_logic.py`.

Modelling choices (all documented at the definitions they concern):

* A pandas `DataFrame` is a `Frame`: an ordered list of `(name, dtype)`
  column headers together with row-major cell lists.  Cells are `Cell.na`
  (NaN / pd.NA / None), 64-bit integers (modelled as `Int`; no arithmetic
  in the code can overflow them), float64 values (modelled as `ℚ`, exact
  decimals — the code performs no float arithmetic, it only stores and
  re-reads values), and Python strings.
* The on-disk `;`-separated file is a `StoredCSV`: the header names plus
  the grid of written fields.  A written field is an `SCell`: the empty
  field, a canonically written integer (`intTok`), a canonically written
  float (`floatTok`), or arbitrary text (`txt`).  `csv` quoting in
  `to_csv`/`read_csv` transports the grid of fields faithfully, so the
  text layer itself is not modelled.
* `pd.read_csv` type inference is modelled column-wise, as pandas' C
  parser performs it: a column whose non-missing fields are all integer
  literals becomes `int64`; one whose fields are all numeric literals
  becomes `float64`; anything else stays `object` (strings).  Fields
  matching pandas' default NA sentinels (`""`, `"NaN"`, `"NA"`, ...)
  read as missing.  Scientific notation is supported by the literal
  parsers; exotic spellings (`"inf"`, hex floats) are out of the
  modelled fragment and are treated as text.
* Exceptions are modelled with `Except Unit` / `Option`; the text of a
  Python exception rendered by `str(e)` is not modelled and is stood in
  for by the opaque-but-ordinary string constant `exnText`.
-/

/-! ## Character and token-level helpers -/

/-- Lowercase a character list (models Python `str.lower` on the ASCII
fragment exercised here). -/
def lowerL (l : List Char) : List Char := l.map Char.toLower

/-- `containsSub hay pat`: does `hay` contain `pat` as a contiguous
substring (models Python `pat in hay`)? -/
def containsSub (hay pat : String) : Bool :=
  hay.data.tails.any (fun t => pat.data.isPrefixOf t)

/-- Numeric value of a digit list (caller checks digits). -/
def digitsVal (l : List Char) : Nat :=
  l.foldl (fun a c => a * 10 + (c.toNat - 48)) 0

/-- A non-empty all-digit list. -/
def isDigits (l : List Char) : Bool := !l.isEmpty && l.all Char.isDigit

/-- Parse an optionally signed integer literal, as pandas' C parser
accepts in a numeric column (`"7"`, `"-2"`, `"+3"`, `"007"`). -/
def parseIntTok (l : List Char) : Option Int :=
  match l with
  | [] => none
  | c :: r =>
    if c = '-' then (if isDigits r then some (-(digitsVal r : Int)) else none)
    else if c = '+' then (if isDigits r then some (digitsVal r : Int) else none)
    else if isDigits (c :: r) then some (digitsVal (c :: r) : Int) else none

/-- Parse an unsigned decimal mantissa (`"12"`, `"12.5"`, `"12."`,
`".5"`). -/
def parseMantissa (l : List Char) : Option ℚ :=
  let ip := l.takeWhile (fun c => c ≠ '.')
  let rest := l.dropWhile (fun c => c ≠ '.')
  match rest with
  | [] => if isDigits ip then some ((digitsVal ip : ℚ)) else none
  | _ :: fp =>
    if (ip.all Char.isDigit && fp.all Char.isDigit) && !(ip.isEmpty && fp.isEmpty)
    then some ((digitsVal ip : ℚ) + (digitsVal fp : ℚ) / (10 : ℚ) ^ fp.length)
    else none

/-- Split a mantissa from an optional `e`/`E` exponent part. -/
def splitExp (l : List Char) : List Char × Option (List Char) :=
  let m := l.takeWhile (fun c => c ≠ 'e' && c ≠ 'E')
  let r := l.dropWhile (fun c => c ≠ 'e' && c ≠ 'E')
  match r with
  | [] => (m, none)
  | _ :: e => (m, some e)

/-- Parse an unsigned float literal with optional exponent. -/
def parseUFloat (l : List Char) : Option ℚ :=
  match splitExp l with
  | (m, none) => parseMantissa m
  | (m, some e) =>
    match parseMantissa m, parseIntTok e with
    | some q, some k => some (q * (10 : ℚ) ^ (k : Int))
    | _, _ => none

/-- Parse an optionally signed float literal, as pandas' C parser accepts
in a numeric column. -/
def parseFloatTok (l : List Char) : Option ℚ :=
  match l with
  | [] => none
  | c :: r =>
    if c = '-' then (parseUFloat r).map (fun q => -q)
    else if c = '+' then parseUFloat r
    else parseUFloat (c :: r)

/-- pandas `read_csv` default NA sentinel strings (a written field equal
to one of these reads back as missing). -/
def naValues : List String :=
  ["", "#N/A", "#N/A N/A", "#NA", "-1.#IND", "-1.#QNAN", "-NaN", "-nan",
   "1.#IND", "1.#QNAN", "<NA>", "N/A", "NA", "NULL", "NaN", "None",
   "n/a", "nan", "null"]

/-! ## Cells, dtypes, frames and the stored file -/

/-- pandas dtypes occurring in `load_data`: numpy `int64` and `float64`
(from `read_csv` inference), the nullable `"Int64"` and `object` (the
declared schema dtypes). -/
inductive Dtype
  | int64
  | nullableInt
  | float64
  | obj
deriving DecidableEq, Repr

/-- One cell of a DataFrame. `na` models NaN / pd.NA / missing. -/
inductive Cell
  | na
  | int (i : Int)
  | float (q : ℚ)
  | str (s : String)
deriving DecidableEq, Repr

/-- One written field of the `;`-separated file: empty, a canonically
written integer, a canonically written float (Python float `repr` always
carries a decimal point or exponent, so it never reads back as an
integer literal), or literal text. -/
inductive SCell
  | empty
  | intTok (i : Int)
  | floatTok (q : ℚ)
  | txt (s : String)
deriving DecidableEq, Repr

/-- A DataFrame: ordered `(name, dtype)` columns and row-major cells.
Well-formed frames are rectangular (`Frame.WF`). -/
structure Frame where
  cols : List (String × Dtype)
  rows : List (List Cell)
deriving DecidableEq, Repr

/-- Rectangularity of a frame. -/
def Frame.WF (f : Frame) : Prop :=
  ∀ r ∈ f.rows, r.length = f.cols.length

/-- The grid of fields stored in the `;`-separated file: the header line
and one list of written fields per record line. -/
structure StoredCSV where
  header : List String
  rows : List (List SCell)
deriving DecidableEq, Repr

/-- Column names of a frame, in order. -/
def names (f : Frame) : List String := f.cols.map (fun c => c.1)

/-- Index of the first column with the given name (`data[name]` /
`name in data.columns`). -/
def colIdx (f : Frame) (n : String) : Option Nat :=
  (names f).findIdx? (fun m => m = n)

/-- The cells of column `j`, top to bottom. -/
def getColD (f : Frame) (j : Nat) : List Cell :=
  f.rows.map (fun r => r.getD j Cell.na)

/-- Replace the dtype and cells of column `j` (lengths agree at call
sites). -/
def setColAt (f : Frame) (j : Nat) (d : Dtype) (cells : List Cell) : Frame :=
  { cols := f.cols.set j ((f.cols.getD j ("", Dtype.obj)).1, d),
    rows := (f.rows.zip cells).map (fun rc => rc.1.set j rc.2) }

/-- Append a fresh column on the right (pandas `data[newname] = ...`). -/
def appendCol (f : Frame) (n : String) (d : Dtype) (cells : List Cell) : Frame :=
  { cols := f.cols ++ [(n, d)],
    rows := (f.rows.zip cells).map (fun rc => rc.1 ++ [rc.2]) }

/-- `data[name] = series` for an `object` series: overwrite the existing
column in place, or append a new one. -/
def setOrAppendColObj (f : Frame) (n : String) (cells : List Cell) : Frame :=
  match colIdx f n with
  | some j => setColAt f j Dtype.obj cells
  | none => appendCol f n Dtype.obj cells

/-- Drop every column whose name satisfies `p`
(`data.drop(columns=[...])`). -/
def dropColsBy (p : String → Bool) (f : Frame) : Frame :=
  { cols := f.cols.filter (fun c => !p c.1),
    rows := f.rows.map (fun r =>
      (((names f).zip r).filter (fun x => !p x.1)).map (fun x => x.2)) }

/-! ## `pd.read_csv` (l.30): column-wise type inference over the grid -/

/-- pandas' mangling of duplicate header names (`a, a` becomes
`a, a.1`).  Implemented for one mangling round, which is the behaviour
on headers whose names do not already use the mangled spelling. -/
def mangle (l : List String) : List String :=
  l.enum.map (fun ni =>
    let k := (l.take ni.1).count ni.2
    if k = 0 then ni.2 else ni.2 ++ "." ++ toString k)

/-- Does this written field read as missing (empty field or NA
sentinel)? -/
def scIsNa : SCell → Bool
  | SCell.empty => true
  | SCell.txt s => naValues.contains s
  | _ => false

/-- Does this written field parse as an integer literal? -/
def scIsInt : SCell → Bool
  | SCell.intTok _ => true
  | SCell.txt s => (parseIntTok s.data).isSome
  | _ => false

/-- Does this written field parse as a numeric (float) literal? -/
def scIsFloat : SCell → Bool
  | SCell.intTok _ => true
  | SCell.floatTok _ => true
  | SCell.txt s => (parseFloatTok s.data).isSome
  | _ => false

/-- Column-wise dtype inference of pandas' C parser: a rowless column is
`object`; an all-missing column is `float64` (all NaN); all-integer with
no missing fields is `int64`; all-numeric (or missing) is `float64`;
otherwise `object`. -/
def classifyCol (toks : List SCell) : Dtype :=
  if toks.isEmpty then Dtype.obj
  else if toks.all scIsNa then Dtype.float64
  else if toks.all (fun t => scIsNa t || scIsInt t) then
    (if toks.any scIsNa then Dtype.float64 else Dtype.int64)
  else if toks.all (fun t => scIsNa t || scIsFloat t) then Dtype.float64
  else Dtype.obj

/-- Canonical text of a float cell, used only where a float written by
`to_csv` is read back into an `object` column (a mixed column).  Whole
floats are written Python-style (`"100.0"`); the spelling of non-whole
floats is a modelling artefact, unexercised by the claims. -/
def renderFloat (q : ℚ) : String :=
  if q.den = 1 then toString q.num ++ ".0" else toString q

/-- The cell a written field becomes in a column of the inferred
dtype. -/
def decodeCell (d : Dtype) (t : SCell) : Cell :=
  match d with
  | Dtype.int64 =>
    match t with
    | SCell.intTok i => Cell.int i
    | SCell.txt s => Cell.int ((parseIntTok s.data).getD 0)
    | _ => Cell.na
  | Dtype.float64 =>
    match t with
    | SCell.intTok i => Cell.float (i : ℚ)
    | SCell.floatTok q => Cell.float q
    | SCell.txt s =>
      if naValues.contains s then Cell.na
      else Cell.float ((parseFloatTok s.data).getD 0)
    | SCell.empty => Cell.na
  | _ =>
    match t with
    | SCell.empty => Cell.na
    | SCell.intTok i => Cell.str (toString i)
    | SCell.floatTok q => Cell.str (renderFloat q)
    | SCell.txt s => if naValues.contains s then Cell.na else Cell.str s

/-- `pd.read_csv(file_path, delimiter=';')` on the stored grid: a record
line with more fields than the header is a parse error (propagated to
`load_data`'s catch-all); short lines are padded with missing fields;
duplicate header names are mangled; then each column is inferred and
decoded. -/
def read_csv (s : StoredCSV) : Except Unit Frame :=
  if s.rows.any (fun r => s.header.length < r.length) then Except.error () else
  let hdr := mangle s.header
  let w := hdr.length
  let padded := s.rows.map (fun r => r ++ List.replicate (w - r.length) SCell.empty)
  let classes := (List.range w).map (fun j => classifyCol (padded.map (fun r => r.getD j SCell.empty)))
  Except.ok
    { cols := hdr.zip classes,
      rows := padded.map (fun r => (r.zip classes).map (fun tc => decodeCell tc.2 tc.1)) }

/-! ## Legacy `Name` handling (`load_data`, l.36-43) -/

/-- `s.split(' ', 1)[0]`: the part of `s` before its first space. -/
def splitFirstSpace (s : String) : String × String :=
  (String.mk (s.data.takeWhile (fun c => c ≠ ' ')),
   String.mk ((s.data.dropWhile (fun c => c ≠ ' ')).drop 1))

/-- `name_parts.str[0]` for one cell: the part before the first space
for a string, NaN for a non-string element of an object column. -/
def splitCellFirst : Cell → Cell
  | Cell.str s => Cell.str (splitFirstSpace s).1
  | _ => Cell.na

/-- `name_parts.str[1].fillna('')` for one cell: the remainder after the
first space; the empty string when there is no space or the element is
not a string. -/
def splitCellLast : Cell → Cell
  | Cell.str s => Cell.str (splitFirstSpace s).2
  | _ => Cell.str ""

/-- Lines 36-43 of `load_data`: when a `Name` column is present and
`First Name` or `Last Name` is absent, split `Name` on the first space
into the two columns, then drop `Name`; when both are present, just drop
`Name`.  `.str` on a numeric (`int64`/`float64`) `Name` column raises
`AttributeError` (pandas allows `.str` only on object columns), which
`load_data`'s catch-all turns into the empty declared table — modelled
as `Except.error`. -/
def nameStage (f : Frame) : Except Unit Frame :=
  match colIdx f "Name" with
  | none => Except.ok f
  | some j =>
    if colIdx f "First Name" = none || colIdx f "Last Name" = none then
      if (f.cols.getD j ("", Dtype.obj)).2 = Dtype.obj then
        let nameCells := getColD f j
        let f1 := setOrAppendColObj f "First Name" (nameCells.map splitCellFirst)
        let f2 := setOrAppendColObj f1 "Last Name" (nameCells.map splitCellLast)
        Except.ok (dropColsBy (fun n => n = "Name") f2)
      else Except.error ()
    else Except.ok (dropColsBy (fun n => n = "Name") f)

/-! ## Declared schema and normalization (`load_data`, l.13-21, 47-58) -/

/-- The declared 7-column schema (`required_columns` in `load_data`). -/
def required_columns : List (String × Dtype) :=
  [("Customer ID", Dtype.nullableInt), ("First Name", Dtype.obj),
   ("Last Name", Dtype.obj), ("Email", Dtype.obj), ("Phone", Dtype.obj),
   ("Status", Dtype.obj), ("Amount", Dtype.float64)]

/-- `series.astype(dtype)` on one cell; `none` models the raised
conversion error.  `astype("Int64")` accepts integers, whole floats and
missing values; it raises on non-whole floats and on strings (an object
column produced by `read_csv` always contains a non-numeric string, so
the string case is unreachable with a parsed frame).  `astype(float)`
parses numeric strings and raises on other strings.  `astype(object)`
keeps every element. -/
def coerceCell (d : Dtype) (c : Cell) : Option Cell :=
  match d, c with
  | Dtype.obj, c => some c
  | _, Cell.na => some Cell.na
  | Dtype.nullableInt, Cell.int i => some (Cell.int i)
  | Dtype.nullableInt, Cell.float q =>
    if q.den = 1 then some (Cell.int q.num) else none
  | Dtype.nullableInt, Cell.str _ => none
  | Dtype.int64, Cell.int i => some (Cell.int i)
  | Dtype.int64, Cell.float q =>
    if q.den = 1 then some (Cell.int q.num) else none
  | Dtype.int64, Cell.str _ => none
  | Dtype.float64, Cell.int i => some (Cell.float (i : ℚ))
  | Dtype.float64, Cell.float q => some (Cell.float q)
  | Dtype.float64, Cell.str s => (parseFloatTok s.data).map Cell.float

/-- `astype` over a whole column: all cells convert, or the whole
conversion raises. -/
def coerceCol (d : Dtype) : List Cell → Option (List Cell)
  | [] => some []
  | c :: cs =>
    match coerceCell d c, coerceCol d cs with
    | some c2, some cs2 => some (c2 :: cs2)
    | _, _ => none

/-- One iteration of the `for column, dtype in required_columns` loop:
a missing declared column is created as an all-missing column of the
declared dtype (assigning an empty `pd.Series(dtype=dtype)` aligns to
the frame's index, making every value missing); a present column is
`astype`d, and replaced by an all-missing column of the declared dtype
when the coercion raises. -/
def ensureCol (f : Frame) (cd : String × Dtype) : Frame :=
  match colIdx f cd.1 with
  | none => appendCol f cd.1 cd.2 (List.replicate f.rows.length Cell.na)
  | some j =>
    match coerceCol cd.2 (getColD f j) with
    | some cs => setColAt f j cd.2 cs
    | none => setColAt f j cd.2 (List.replicate f.rows.length Cell.na)

/-- Lines 47-55: force every declared column to exist with its declared
dtype. -/
def normalize_columns (f : Frame) : Frame :=
  required_columns.foldl ensureCol f

/-- Line 58: `data.dropna(how="all").reset_index(drop=True)` — drop rows
whose every cell is missing (the index reset is a no-op in the list
model). -/
def dropEmptyRows (f : Frame) : Frame :=
  { cols := f.cols, rows := f.rows.filter (fun r => !(r.all (fun c => c == Cell.na))) }

/-- The empty declared-schema table. -/
def emptyDeclaredFrame : Frame := { cols := required_columns, rows := [] }

/-- `CRMAgent.load_data`.  `none` is a missing file (the `os.path.exists`
branch); `some s` is a file holding the grid `s`.  Any modelled raise
(`read_csv` parse error, `.str` on a numeric `Name` column) is caught by
the outer `except` and yields the empty declared table.  The function is
total: it never propagates a failure. -/
def load_data (input : Option StoredCSV) : Frame :=
  match input with
  | none => emptyDeclaredFrame
  | some s =>
    match (read_csv s).bind
        (fun d => nameStage (dropColsBy (fun n => containsSub n "Unnamed:") d)) with
    | Except.error _ => emptyDeclaredFrame
    | Except.ok d => dropEmptyRows (normalize_columns d)

/-! ## `CRMAgent.save_data` (l.66-76) -/

/-- The field `to_csv` writes for one cell: missing values and empty
strings write the empty field; integers and floats their canonical
spelling; other strings their literal text. -/
def renderSCell : Cell → SCell
  | Cell.na => SCell.empty
  | Cell.int i => SCell.intTok i
  | Cell.float q => SCell.floatTok q
  | Cell.str s => if s = "" then SCell.empty else SCell.txt s

/-- `df.to_csv(file_path, index=False, sep=';')`: the header line is the
column names, no index column, one line per row. -/
def save_data (f : Frame) : StoredCSV :=
  { header := names f, rows := f.rows.map (fun r => r.map renderSCell) }

/-! ## `CRMAgent.add_customer` (l.78-110) -/

/-- Python truthiness of a cell value as tested by
`not customer_details[field]`: empty strings and zero numbers are falsy
(`None` is falsy and is the reading modelled for `na`). -/
def truthy : Cell → Bool
  | Cell.na => false
  | Cell.int i => i != 0
  | Cell.float q => q != 0
  | Cell.str s => s != ""

/-- Dictionary lookup in a `customer_details` / `updates` mapping
(Python dict keys are unique; the model reads the first binding). -/
def lookupD (l : List (String × Cell)) (k : String) : Option Cell :=
  (l.find? (fun x => x.1 = k)).map (fun x => x.2)

/-- The validated fields, in the order the `for field in required_fields`
loop tests them. -/
def required_fields : List String :=
  ["First Name", "Last Name", "Email", "Phone", "Status", "Amount"]

/-- The loop test
`field not in customer_details or not customer_details[field]`. -/
def fieldMissing (details : List (String × Cell)) (fld : String) : Bool :=
  match lookupD details fld with
  | none => true
  | some v => !truthy v

/-- The first field that is absent from the mapping or has a falsy
value — the `for field in required_fields` loop with its early
`return`, unrolled over the literal field list; `none` when validation
passes. -/
def firstMissing (details : List (String × Cell)) : Option String :=
  required_fields.find? (fieldMissing details)

/-- `customer_details["Customer ID"] = new_id`: replace the value of an
existing key in place, else append the binding. -/
def dictSet (l : List (String × Cell)) (k : String) (v : Cell) : List (String × Cell) :=
  if (l.find? (fun x => x.1 = k)).isSome
  then l.map (fun x => if x.1 = k then (x.1, v) else x)
  else l ++ [(k, v)]

/-- `data['Customer ID'].max()` on an Int64 column: the maximum of the
integer values, skipping missing ones; `none` when there is no integer
value (the all-missing maximum is `NA`, and `int(NA + 1)` then
raises). -/
def maxIdCell (cells : List Cell) : Option Int :=
  cells.foldl (fun a c =>
    match c with
    | Cell.int i => some (match a with | none => i | some m => max m i)
    | _ => a) none

/-- Is the frame empty in pandas' sense (`df.empty`: some axis has
length 0)? -/
def frameEmpty (f : Frame) : Bool := f.rows.isEmpty || f.cols.isEmpty

/-- `pd.DataFrame([customer_details])`: a one-row frame whose columns
are the dict keys in order. -/
def newRecordFrame (details : List (String × Cell)) : Frame :=
  { cols := details.map (fun kv => (kv.1, Dtype.obj)),
    rows := [details.map (fun kv => kv.2)] }

/-- `pd.concat([data, new_record], ignore_index=True)`: columns are
aligned by name; columns of the new record absent from `data` are
appended on the right, with missing values for the old rows; cells of
the new row are placed under the column of the same name, missing where
the new record has no such column.  (Result dtypes are not inspected by
any claim; the model keeps `data`'s tags and `obj` for appended
columns.) -/
def concatFrames (a b : Frame) : Frame :=
  let extra := b.cols.filter (fun c => !(names a).contains c.1)
  { cols := a.cols ++ extra,
    rows := a.rows.map (fun r => r ++ List.replicate extra.length Cell.na)
      ++ b.rows.map (fun r =>
           (a.cols ++ extra).map (fun c =>
             match (names b).findIdx? (fun m => m = c.1) with
             | some j => r.getD j Cell.na
             | none => Cell.na)) }

/-- Stand-in for the text `str(e)` of a raised Python exception; its
value is never relied on by a theorem. -/
def exnText : String := "(exception text)"

/-- `CRMAgent.add_customer`.  Returns the message and, when `save_data`
is reached, the frame handed to it (`none` models "no new row was
persisted").  The `int(data['Customer ID'].max() + 1)` raise on an
all-missing ID column is converted to a failure string by the
function's catch-all, as in the source. -/
def add_customer (data : Frame) (details : List (String × Cell)) :
    String × Option Frame :=
  match firstMissing details with
  | some fld => ("Error: " ++ fld ++ " is required", none)
  | none =>
    if frameEmpty data || colIdx data "Customer ID" = none then
      let details2 := dictSet details "Customer ID" (Cell.int 1)
      ("Customer added successfully with ID 1",
       some (concatFrames data (newRecordFrame details2)))
    else
      match maxIdCell (getColD data ((colIdx data "Customer ID").getD 0)) with
      | none => ("Error adding customer: " ++ exnText, none)
      | some m =>
        let nid := m + 1
        let details2 := dictSet details "Customer ID" (Cell.int nid)
        ("Customer added successfully with ID " ++ toString nid,
         some (concatFrames data (newRecordFrame details2)))

/-! ## `CRMAgent.update_customer` (l.112-134) -/

/-- `data['Customer ID'] == customer_id` on one cell: `none` is pandas
`NA` (missing propagates through the comparison); strings compare
unequal to an integer. -/
def maskVal (idc : Cell) (id : Int) : Option Bool :=
  match idc with
  | Cell.na => none
  | Cell.int j => some (decide (j = id))
  | Cell.float q => some (decide (q = (id : ℚ)))
  | Cell.str _ => some false

/-- Python's builtin `any(mask)` over a nullable-boolean series: stops
at the first `True`; evaluating the truth of an `NA` before that raises
`TypeError`. -/
def anyMaskBuiltin : List (Option Bool) → Except Unit Bool
  | [] => Except.ok false
  | some true :: _ => Except.ok true
  | some false :: r => anyMaskBuiltin r
  | none :: _ => Except.error ()

/-- One iteration of the `for key, value in updates.items()` loop:
`data.loc[customer_mask, key] = value` when the key is a column
(`if key in data.columns`), else nothing. -/
def applyOne (mask : List (Option Bool)) (f : Frame) (kv : String × Cell) : Frame :=
  match colIdx f kv.1 with
  | some j =>
    { cols := f.cols,
      rows := (f.rows.zip mask).map (fun rm =>
        if rm.2 = some true then rm.1.set j kv.2 else rm.1) }
  | none => f

/-- The whole update loop, applied once the customer was found.  The
mask is the one computed once, up front. -/
def applyUpdates (mask : List (Option Bool)) (updates : List (String × Cell))
    (data : Frame) : Frame :=
  updates.foldl (applyOne mask) data

/-- `CRMAgent.update_customer`.  Returns the message, the frame handed
to `save_data` (`none` when `save_data` is not called) and the final
state of `data` (the source mutates it in place).  A missing
`Customer ID` column (`KeyError`), an `NA` reached by `any`, and a mask
containing `NA` used by `.loc` with at least one recognized key
(`ValueError`) all land in the catch-all failure string. -/
def update_customer (data : Frame) (id : Int) (updates : List (String × Cell)) :
    String × Option Frame × Frame :=
  match colIdx data "Customer ID" with
  | none => ("Error updating customer: " ++ exnText, none, data)
  | some jid =>
    let mask := (getColD data jid).map (fun c => maskVal c id)
    match anyMaskBuiltin mask with
    | Except.error _ => ("Error updating customer: " ++ exnText, none, data)
    | Except.ok false => ("No customer found with ID " ++ toString id, none, data)
    | Except.ok true =>
      if mask.any (fun x => x.isNone) && updates.any (fun kv => (names data).contains kv.1) then
        ("Error updating customer: " ++ exnText, none, data)
      else
        let newData := applyUpdates mask updates data
        ("Customer with ID " ++ toString id ++ " updated successfully",
         some newData, newData)

/-! ## `CRMAgent.delete_customer` (l.145-162) -/

/-- Does the cell hold this integer id (`customer_id in values` /
the `!=` filter)?  Missing values compare `False` for the membership
scan. -/
def cellEqInt (c : Cell) (id : Int) : Bool :=
  match c with
  | Cell.int i => decide (i = id)
  | Cell.float q => decide (q = (id : ℚ))
  | _ => false

/-- `CRMAgent.delete_customer`.  Returns the message and the frame
handed to `save_data` (`none` when it is not called).  A missing
`Customer ID` column raises `KeyError`; filtering with a mask that
contains `NA` raises `ValueError`; both land in the catch-all failure
string. -/
def delete_customer (data : Frame) (id : Int) : String × Option Frame :=
  match colIdx data "Customer ID" with
  | none => ("Error deleting customer: " ++ exnText, none)
  | some j =>
    let cells := getColD data j
    if !(cells.any (fun c => cellEqInt c id)) then
      ("No customer found with ID " ++ toString id, none)
    else if cells.contains Cell.na then
      ("Error deleting customer: " ++ exnText, none)
    else
      ("Customer with ID " ++ toString id ++ " deleted successfully",
       some { cols := data.cols,
              rows := data.rows.filter (fun r => !cellEqInt (r.getD j Cell.na) id) })

/-! ## `CRMAgent.search_records` (l.136-143) -/

/-- `str(value)` for one cell, as `data.astype(str)` renders it (NaN
becomes the string `"nan"`). -/
def strForm : Cell → String
  | Cell.na => "nan"
  | Cell.int i => toString i
  | Cell.float q => renderFloat q
  | Cell.str s => s

/-- A token of the regular-expression fragment exercised by
`str.contains` here: a literal character or the `.` metacharacter.
`search_records` hands the raw query to `Series.str.contains`, whose
default is `regex=True` (Python `re.search`); the model covers the
fragment in which every character is a literal except `.`. -/
inductive RTok
  | lit (c : Char)
  | anychar
deriving DecidableEq

/-- Read the query as a pattern of the modelled regex fragment. -/
def parsePat (l : List Char) : List RTok :=
  l.map (fun c => if c = '.' then RTok.anychar else RTok.lit c)

/-- One pattern token against one character. -/
def tokMatches : RTok → Char → Bool
  | RTok.lit c, d => c == d
  | RTok.anychar, _ => true

/-- Does the pattern match a prefix of `cs`? -/
def matchesHere : List RTok → List Char → Bool
  | [], _ => true
  | _ :: _, [] => false
  | t :: ts, c :: cs => tokMatches t c && matchesHere ts cs

/-- `re.search`: does the pattern match anywhere in `hay`? -/
def reContains (pat : List RTok) (hay : List Char) : Bool :=
  hay.tails.any (fun t => matchesHere pat t)

/-- The row predicate of `search_records`: some cell's lowercased string
form matches the lowercased query, read as a regex. -/
def rowMatches (q : String) (r : List Cell) : Bool :=
  r.any (fun c => reContains (parsePat (lowerL q.data)) (lowerL (strForm c).data))

/-- `CRMAgent.search_records`:
`data[data.astype(str).apply(lower).apply(contains(query)).any(axis=1)]`. -/
def search_records (data : Frame) (q : String) : Frame :=
  { cols := data.cols, rows := data.rows.filter (fun r => rowMatches q r) }

/-- Literal substring containment on character lists. -/
def containsSubL (hay pat : List Char) : Bool :=
  hay.tails.any (fun t => pat.isPrefixOf t)

/-- Search as the specification words it (claim C4): keep exactly the
rows in which the lowercase string form of some cell contains the
lowercase query as a *literal* substring, preserving order.  This
definition follows the spec's words and is compared against
`search_records`, which is translated from the source. -/
def search_spec (data : Frame) (q : String) : Frame :=
  { cols := data.cols,
    rows := data.rows.filter (fun r =>
      r.any (fun c => containsSubL (lowerL (strForm c).data) (lowerL q.data))) }

/-! ## Concrete frames, stores and records used by the claims -/

/-- A fully valid `customer_details` mapping used by the scenario. -/
def scen_details : List (String × Cell) :=
  [("First Name", Cell.str "A"), ("Last Name", Cell.str "B"),
   ("Email", Cell.str "a@b.c"), ("Phone", Cell.str "p1"),
   ("Status", Cell.str "Active"), ("Amount", Cell.float 10)]

/-- The table persisted by the first `add` of the scenario. -/
def scen_t1 : Frame := (add_customer emptyDeclaredFrame scen_details).2.getD emptyDeclaredFrame

/-- The table persisted by the second `add` of the scenario. -/
def scen_t2 : Frame := (add_customer scen_t1 scen_details).2.getD emptyDeclaredFrame

/-- The table persisted by deleting the record with ID 2. -/
def scen_t3 : Frame := (delete_customer scen_t2 2).2.getD emptyDeclaredFrame

/-- The metacharacters of Python `re` patterns. -/
def pyMetaChars : List Char :=
  ['.', '^', '$', '*', '+', '?', '\x7b', '\x7d', '[', ']', '\\', '|', '(', ')']

/-- A one-row table whose only cell is the string `"x"`. -/
def dotFrame : Frame := { cols := [("Email", Dtype.obj)], rows := [[Cell.str "x"]] }

/-- The cell of a row under the first column of a given name (`Cell.na`
when there is no such column); used to state where values land after the
column operations of the `Name` stage. -/
def rowVal (ns : List String) (r : List Cell) (n : String) : Cell :=
  match ns.findIdx? (fun m => m = n) with
  | some j => r.getD j Cell.na
  | none => Cell.na

/-- The stored grid used by the C6 counterexample: a lone `Name` column
whose only value is the integer literal `123`. -/
def numericNameStore : StoredCSV :=
  { header := ["Name"], rows := [[SCell.intTok 123]] }

/-- The stored grid of C6's positive examples. -/
def nameSplitStore : StoredCSV :=
  { header := ["Name"],
    rows := [[SCell.txt "Jane Doe"], [SCell.txt "Prince"]] }

/-- The stored grid of C10's counterexample: a numeric `Name` column
next to an existing `First Name` column, with `Last Name` absent. -/
def numericNameOverwriteStore : StoredCSV :=
  { header := ["Name", "First Name"],
    rows := [[SCell.intTok 5, SCell.txt "Ann"]] }

/-- The stored grid of C10's positive overwrite example: `Name` is
`"Jane Doe"` while `First Name` already holds `"Old"`. -/
def nameOverwriteStore : StoredCSV :=
  { header := ["Name", "First Name"],
    rows := [[SCell.txt "Jane Doe", SCell.txt "Old"]] }

/-- The stored grid of C1's counterexample: a file carrying all seven
declared columns plus an extra `Favorite` column. -/
def extraColStore : StoredCSV :=
  { header := ["Customer ID", "First Name", "Last Name", "Email", "Phone",
               "Status", "Amount", "Favorite"],
    rows := [[SCell.intTok 1, SCell.txt "A", SCell.txt "B", SCell.txt "a@b.c",
              SCell.txt "p1", SCell.txt "Active", SCell.floatTok 10,
              SCell.txt "bar"]] }

/-- A customer record as `add_customer` persists it: integer ID, five
textual fields, a float amount. -/
structure Customer where
  cid : Int
  firstName : String
  lastName : String
  email : String
  phone : String
  status : String
  amount : ℚ
deriving DecidableEq, Repr

/-- The row a customer record occupies in a declared-schema frame. -/
def custRow (c : Customer) : List Cell :=
  [Cell.int c.cid, Cell.str c.firstName, Cell.str c.lastName, Cell.str c.email,
   Cell.str c.phone, Cell.str c.status, Cell.float c.amount]

/-- A declared-schema table of customer records. -/
def custFrame (cs : List Customer) : Frame :=
  { cols := required_columns, rows := cs.map custRow }

/-- Validity of a record's textual fields: none is empty or an NA
sentinel (the empty string is itself one of `naValues`). -/
def validCustomer (c : Customer) : Prop :=
  c.firstName ∉ naValues ∧ c.lastName ∉ naValues ∧ c.email ∉ naValues ∧
  c.phone ∉ naValues ∧ c.status ∉ naValues

/-- The stored fields `to_csv` writes for a valid customer row. -/
def sRow (c : Customer) : List SCell :=
  [SCell.intTok c.cid, SCell.txt c.firstName, SCell.txt c.lastName,
   SCell.txt c.email, SCell.txt c.phone, SCell.txt c.status,
   SCell.floatTok c.amount]

/-- The declared header line. -/
def hdr7 : List String :=
  ["Customer ID", "First Name", "Last Name", "Email", "Phone", "Status", "Amount"]

/-- The dtypes `read_csv` infers on a stored customer table whose
textual columns each hold at least one non-numeric value. -/
def readCols : List (String × Dtype) :=
  [("Customer ID", Dtype.int64), ("First Name", Dtype.obj),
   ("Last Name", Dtype.obj), ("Email", Dtype.obj), ("Phone", Dtype.obj),
   ("Status", Dtype.obj), ("Amount", Dtype.float64)]

/-- A one-row declared-schema table whose Phone field is the numeric
string `"12345"`. -/
def numericPhoneFrame : Frame :=
  { cols := required_columns,
    rows := [[Cell.int 1, Cell.str "Jane", Cell.str "Doe", Cell.str "jane@x.io",
              Cell.str "12345", Cell.str "Active", Cell.float 100]] }

/-- A valid customer record whose every textual field is non-numeric. -/
def sampleCustomer : Customer :=
  { cid := 1, firstName := "Jane", lastName := "Doe", email := "jane@x.io",
    phone := "555 0100", status := "Active", amount := 100 }

/-! ## Helper lemmas -/

theorem fieldMissing_false {details : List (String × Cell)} {fld : String} {v : Cell}
    (h1 : lookupD details fld = some v) (h2 : truthy v = true) :
    fieldMissing details fld = false := by
  unfold fieldMissing
  rw [h1]
  simp [h2]

theorem fieldMissing_true_absent {details : List (String × Cell)} {fld : String}
    (h1 : lookupD details fld = none) :
    fieldMissing details fld = true := by
  unfold fieldMissing
  rw [h1]

theorem fieldMissing_true_falsy {details : List (String × Cell)} {fld : String} {v : Cell}
    (h1 : lookupD details fld = some v) (h2 : truthy v = false) :
    fieldMissing details fld = true := by
  unfold fieldMissing
  rw [h1]
  simp [h2]

/-! ## Claim C3 — `add` with Email absent or empty -/

/-- C3 (counterexample): with First Name and Last Name present and
non-empty and Email absent, `add_customer` does *not* return exactly
`"Email is required"`: the literal message carries the `"Error: "`
prefix (`return f"Error: {field} is required"`, l.88), and no row is
persisted. -/
theorem add_email_message_has_prefix :
    (add_customer emptyDeclaredFrame
        [("First Name", Cell.str "A"), ("Last Name", Cell.str "B")]).1
      ≠ "Email is required" ∧
    add_customer emptyDeclaredFrame
        [("First Name", Cell.str "A"), ("Last Name", Cell.str "B")]
      = ("Error: Email is required", none) := by
  constructor
  · decide
  · decide

/-- C3 (amended): for every table and every `customer_details` mapping
in which First Name and Last Name are present with truthy (non-empty)
values and Email is absent or the empty string, `add_customer` returns
exactly `"Error: Email is required"` — naming the first missing field in
the order First Name, Last Name, Email, Phone, Status, Amount — and does
not reach `save_data`, so no new row is persisted. -/
theorem add_email_required (data : Frame) (details : List (String × Cell))
    (v1 v2 : Cell)
    (hf : lookupD details "First Name" = some v1) (hft : truthy v1 = true)
    (hl : lookupD details "Last Name" = some v2) (hlt : truthy v2 = true)
    (he : lookupD details "Email" = none ∨ lookupD details "Email" = some (Cell.str "")) :
    add_customer data details = ("Error: Email is required", none) := by
  have e1 : fieldMissing details "First Name" = false := fieldMissing_false hf hft
  have e2 : fieldMissing details "Last Name" = false := fieldMissing_false hl hlt
  have e3 : fieldMissing details "Email" = true := by
    rcases he with h | h
    · exact fieldMissing_true_absent h
    · exact fieldMissing_true_falsy h rfl
  have hm : firstMissing details = some "Email" := by
    unfold firstMissing required_fields
    simp [List.find?, e1, e2, e3]
  unfold add_customer
  rw [hm]
  rfl

/-- C3 witness. -/
theorem add_email_required_witness :
    add_customer emptyDeclaredFrame
        [("First Name", Cell.str "A"), ("Last Name", Cell.str "B"),
         ("Phone", Cell.str "p")]
      = ("Error: Email is required", none) :=
  add_email_required emptyDeclaredFrame _ (Cell.str "A") (Cell.str "B")
    rfl rfl rfl rfl (Or.inl rfl)

/-! ## Claim C9 — `add` treats a zero Amount as missing -/

/-- C9: a `customer_details` mapping with the five textual fields
present and truthy but `Amount` equal to the integer `0` or the float
`0.0` fails validation — `not customer_details["Amount"]` is `True` for
a zero number — so `add_customer` returns exactly
`"Error: Amount is required"` and persists nothing. -/
theorem add_zero_amount_rejected (data : Frame) (details : List (String × Cell))
    (v1 v2 v3 v4 v5 : Cell)
    (h1 : lookupD details "First Name" = some v1) (t1 : truthy v1 = true)
    (h2 : lookupD details "Last Name" = some v2) (t2 : truthy v2 = true)
    (h3 : lookupD details "Email" = some v3) (t3 : truthy v3 = true)
    (h4 : lookupD details "Phone" = some v4) (t4 : truthy v4 = true)
    (h5 : lookupD details "Status" = some v5) (t5 : truthy v5 = true)
    (ha : lookupD details "Amount" = some (Cell.int 0)
        ∨ lookupD details "Amount" = some (Cell.float 0)) :
    add_customer data details = ("Error: Amount is required", none) := by
  have e1 := fieldMissing_false h1 t1
  have e2 := fieldMissing_false h2 t2
  have e3 := fieldMissing_false h3 t3
  have e4 := fieldMissing_false h4 t4
  have e5 := fieldMissing_false h5 t5
  have e6 : fieldMissing details "Amount" = true := by
    rcases ha with h | h
    · exact fieldMissing_true_falsy h rfl
    · exact fieldMissing_true_falsy h rfl
  have hm : firstMissing details = some "Amount" := by
    unfold firstMissing required_fields
    simp [List.find?, e1, e2, e3, e4, e5, e6]
  unfold add_customer
  rw [hm]
  rfl

/-- C9 witness. -/
theorem add_zero_amount_rejected_witness :
    add_customer emptyDeclaredFrame
        [("First Name", Cell.str "A"), ("Last Name", Cell.str "B"),
         ("Email", Cell.str "e@x"), ("Phone", Cell.str "5"),
         ("Status", Cell.str "Active"), ("Amount", Cell.float 0)]
      = ("Error: Amount is required", none) :=
  add_zero_amount_rejected emptyDeclaredFrame _
    (Cell.str "A") (Cell.str "B") (Cell.str "e@x") (Cell.str "5") (Cell.str "Active")
    rfl rfl rfl rfl rfl rfl rfl rfl rfl rfl (Or.inr rfl)

/-! ## Claim C7 — `update` with a non-existent id -/

theorem anyMask_all_false {l : List (Option Bool)}
    (h : ∀ x ∈ l, x = some false) : anyMaskBuiltin l = Except.ok false := by
  induction l with
  | nil => rfl
  | cons a t ih =>
    have ha := h a (List.mem_cons_self a t)
    subst ha
    exact ih (fun x hx => h x (List.mem_cons_of_mem _ hx))

/-- C7: for every table whose `Customer ID` column holds integer ids and
every id not among them, `update_customer` returns exactly
`"No customer found with ID {id}"`, leaves the table untouched, and does
not reach `save_data` (so storage is unchanged on this path). -/
theorem update_not_found (data : Frame) (id : Int)
    (updates : List (String × Cell)) (jid : Nat)
    (hcol : colIdx data "Customer ID" = some jid)
    (hints : ∀ c ∈ getColD data jid, ∃ i, c = Cell.int i)
    (habsent : ∀ c ∈ getColD data jid, c ≠ Cell.int id) :
    update_customer data id updates
      = ("No customer found with ID " ++ toString id, none, data) := by
  have hmask : anyMaskBuiltin ((getColD data jid).map (fun c => maskVal c id))
      = Except.ok false := by
    apply anyMask_all_false
    intro x hx
    rcases List.mem_map.mp hx with ⟨c, hc, rfl⟩
    rcases hints c hc with ⟨i, rfl⟩
    have : i ≠ id := fun h => habsent _ hc (by rw [h])
    simp [maskVal, this]
  unfold update_customer
  rw [hcol]
  simp only [hmask]

/-- C7 witness. -/
theorem update_not_found_witness :
    update_customer
        { cols := required_columns,
          rows := [[Cell.int 1, Cell.str "A", Cell.str "B", Cell.str "e",
                    Cell.str "p", Cell.str "Active", Cell.float 10]] }
        5 [("Email", Cell.str "z")]
      = ("No customer found with ID 5", none,
         { cols := required_columns,
           rows := [[Cell.int 1, Cell.str "A", Cell.str "B", Cell.str "e",
                     Cell.str "p", Cell.str "Active", Cell.float 10]] }) := by
  apply update_not_found _ _ _ 0
  · decide
  · intro c hc
    simp [getColD] at hc
    exact ⟨1, hc⟩
  · intro c hc
    simp [getColD] at hc
    subst hc
    decide

/-! ## Claim C2 — ID assignment and the documented ID-reuse scenario -/

/-- C2: with validation passing and a `Customer ID` column present,
`add_customer` assigns ID 1 to an empty table and
`max(existing Customer ID) + 1` otherwise (`maxIdCell` is
`data['Customer ID'].max()`), persisting the record with that id; and
in the concrete scenario, adding to the empty table assigns 1, adding
again assigns 2, and after deleting the record with ID 2 a third add
assigns 2 again — the highest id is reused. -/
theorem add_assigns_ids (data : Frame) (details : List (String × Cell)) (jid : Nat)
    (hval : firstMissing details = none)
    (hcol : colIdx data "Customer ID" = some jid) :
    (data.rows = [] →
      add_customer data details
        = ("Customer added successfully with ID 1",
           some (concatFrames data
             (newRecordFrame (dictSet details "Customer ID" (Cell.int 1))))))
    ∧ (∀ m, maxIdCell (getColD data jid) = some m → data.rows ≠ [] →
        add_customer data details
          = ("Customer added successfully with ID " ++ toString (m + 1),
             some (concatFrames data
               (newRecordFrame (dictSet details "Customer ID" (Cell.int (m + 1)))))))
    ∧ (add_customer emptyDeclaredFrame scen_details).1
        = "Customer added successfully with ID 1"
    ∧ (add_customer scen_t1 scen_details).1
        = "Customer added successfully with ID 2"
    ∧ (delete_customer scen_t2 2).1
        = "Customer with ID 2 deleted successfully"
    ∧ (add_customer scen_t3 scen_details).1
        = "Customer added successfully with ID 2" := by
  refine ⟨?_, ?_, by decide, by decide, by decide, by decide⟩
  · intro hrows
    unfold add_customer
    rw [hval]
    have he : frameEmpty data = true := by simp [frameEmpty, hrows]
    simp [he]
  · intro m hm hrows
    unfold add_customer
    rw [hval]
    have he : frameEmpty data = false := by
      simp [frameEmpty]
      constructor
      · simpa using hrows
      · intro hc
        unfold colIdx names at hcol
        rw [hc] at hcol
        simp at hcol
    rw [he]
    simp only [hcol]
    simp [hm]

/-- C2 witness. -/
theorem add_assigns_ids_witness :
    add_customer scen_t1 scen_details
      = ("Customer added successfully with ID 2",
         some (concatFrames scen_t1
           (newRecordFrame (dictSet scen_details "Customer ID" (Cell.int 2))))) :=
  ((add_assigns_ids scen_t1 scen_details 0 (by decide) (by decide)).2.1)
    1 (by decide) (by decide)

/-! ## Claim C4 — `search` matches substrings only up to regex reading -/

/-- C4 (counterexample): for the query `"."`, `search_records` does not
return the rows whose cells contain `"."` as a literal substring — the
query reaches `Series.str.contains` with its default `regex=True`, so
`"."` matches any character: the row holding `"x"` is returned although
`"x"` has no literal `"."` in it. -/
theorem search_dot_is_regex :
    search_records dotFrame "." ≠ search_spec dotFrame "." ∧
    search_records dotFrame "." = dotFrame ∧
    (search_spec dotFrame ".").rows = [] := by
  refine ⟨by decide, by decide, by decide⟩

theorem any_congr_mem {α : Type} {l : List α} {f g : α → Bool}
    (h : ∀ a ∈ l, f a = g a) : l.any f = l.any g := by
  induction l with
  | nil => rfl
  | cons a t ih =>
    simp only [List.any_cons]
    rw [h a (List.mem_cons_self a t), ih (fun x hx => h x (List.mem_cons_of_mem _ hx))]

theorem toLower_eq_dot {c : Char} (h : Char.toLower c = '.') : c = '.' := by
  simp only [Char.toLower] at h
  by_cases hn : c.toNat ≥ 65 ∧ c.toNat ≤ 90
  · exfalso
    rw [if_pos hn] at h
    obtain ⟨h1, h2⟩ := hn
    interval_cases hc : c.toNat <;> exact absurd h (by decide)
  · rw [if_neg hn] at h
    exact h

theorem parsePat_all_lit {l : List Char} (h : ∀ c ∈ l, c ≠ '.') :
    parsePat l = l.map RTok.lit := by
  unfold parsePat
  apply List.map_congr_left
  intro a ha
  simp [h a ha]

theorem matchesHere_lit (p h : List Char) :
    matchesHere (p.map RTok.lit) h = p.isPrefixOf h := by
  induction p generalizing h with
  | nil => cases h <;> rfl
  | cons a t ih =>
    cases h with
    | nil => rfl
    | cons b hs =>
      show ((a == b) && matchesHere (t.map RTok.lit) hs)
          = ((a == b) && t.isPrefixOf hs)
      rw [ih]

theorem reContains_lit (p h : List Char) :
    reContains (p.map RTok.lit) h = containsSubL h p := by
  unfold reContains containsSubL
  apply any_congr_mem
  intro t _
  exact matchesHere_lit p t

/-- C4 (amended): for every table and every query containing no regex
metacharacter, `search_records` agrees with the spec's wording
(`search_spec`): it returns exactly the rows in which the lowercase
string form of some column's value contains the lowercase query as a
literal substring, in the original row order and with no size limit
(both sides filter, preserving order and keeping every match).  For
queries with metacharacters the query is interpreted as a regular
expression instead. -/
theorem search_eq_spec_of_no_meta (data : Frame) (q : String)
    (h : ∀ c ∈ q.data, pyMetaChars.contains c = false) :
    search_records data q = search_spec data q := by
  have hdot : ∀ c ∈ lowerL q.data, c ≠ '.' := by
    intro c hc
    rcases List.mem_map.mp hc with ⟨c0, hc0, rfl⟩
    intro hd
    have := h c0 hc0
    have hc0d : c0 = '.' := toLower_eq_dot hd
    rw [hc0d] at this
    exact absurd this (by decide)
  have hpat : parsePat (lowerL q.data) = (lowerL q.data).map RTok.lit :=
    parsePat_all_lit hdot
  unfold search_records search_spec
  congr 1
  apply List.filter_congr
  intro r _
  unfold rowMatches
  apply any_congr_mem
  intro c _
  rw [hpat]
  exact reContains_lit _ _

/-- C4 witness. -/
theorem search_eq_spec_of_no_meta_witness :
    search_records scen_t1 "Active" = search_spec scen_t1 "Active" :=
  search_eq_spec_of_no_meta scen_t1 "Active" (by decide)

/-! ## Claim C8 — `update` overwrites only the named fields on matching rows -/

theorem colIdx_lt {f : Frame} {n : String} {j : Nat} (h : colIdx f n = some j) :
    j < f.cols.length := by
  unfold colIdx at h
  rcases List.findIdx?_eq_some_iff_getElem.mp h with ⟨hlt, _, _⟩
  simpa [names] using hlt

theorem colIdx_name {f : Frame} {n : String} {j : Nat} (h : colIdx f n = some j) :
    (f.cols.getD j ("", Dtype.obj)).1 = n := by
  have hj : j < f.cols.length := colIdx_lt h
  unfold colIdx at h
  rcases List.findIdx?_eq_some_iff_getElem.mp h with ⟨hlt, hp, _⟩
  have hpn : (names f)[j] = n := by simpa using hp
  rw [List.getD_eq_getElem?_getD, List.getElem?_eq_getElem hj]
  simpa [names] using hpn

theorem colIdx_none_name {f : Frame} {n : String} (h : colIdx f n = none)
    (j : Nat) (hj : j < f.cols.length) :
    (f.cols.getD j ("", Dtype.obj)).1 ≠ n := by
  unfold colIdx at h
  rw [List.findIdx?_eq_none_iff] at h
  rw [List.getD_eq_getElem?_getD, List.getElem?_eq_getElem hj]
  have hmem : (f.cols[j]).1 ∈ names f :=
    List.mem_map_of_mem _ (f.cols.getElem_mem hj)
  have := h _ hmem
  simpa using this

theorem colIdx_of_name {f : Frame} {n : String} {j : Nat}
    (hnd : (names f).Nodup) (hj : j < f.cols.length)
    (hn : (f.cols.getD j ("", Dtype.obj)).1 = n) : colIdx f n = some j := by
  have hlt : j < (names f).length := by simpa [names] using hj
  have hnj : (names f)[j] = n := by
    rw [List.getD_eq_getElem?_getD, List.getElem?_eq_getElem hj] at hn
    simpa [names] using hn
  unfold colIdx
  rw [List.findIdx?_eq_some_iff_getElem]
  refine ⟨hlt, by simpa using hnj, ?_⟩
  intro j' hj'
  simp only [decide_eq_true_eq]
  intro he
  have heq : (names f)[j'] = (names f)[j] := by
    rw [he, hnj]
  have := (hnd.getElem_inj_iff).mp heq
  omega

theorem applyOne_cols (mask : List (Option Bool)) (f : Frame) (kv : String × Cell) :
    (applyOne mask f kv).cols = f.cols := by
  unfold applyOne
  cases h : colIdx f kv.1 <;> rfl

theorem applyOne_rows_length (mask : List (Option Bool)) (f : Frame) (kv : String × Cell)
    (hlen : mask.length = f.rows.length) :
    (applyOne mask f kv).rows.length = f.rows.length := by
  unfold applyOne
  cases h : colIdx f kv.1 with
  | none => rfl
  | some j => simp [hlen]

theorem applyOne_WF {mask : List (Option Bool)} {f : Frame} {kv : String × Cell}
    (hwf : f.WF) : (applyOne mask f kv).WF := by
  unfold applyOne
  cases h : colIdx f kv.1 with
  | none => exact hwf
  | some j =>
    intro r hr
    simp only [List.mem_map] at hr
    rcases hr with ⟨rc, hrc, rfl⟩
    have h1 : rc.1 ∈ f.rows := (List.of_mem_zip hrc).1
    by_cases hm : rc.2 = some true <;> simp [hm, hwf _ h1]

theorem applyOne_cell (mask : List (Option Bool)) (f : Frame) (kv : String × Cell)
    (hnodup : (names f).Nodup) (hwf : f.WF) (hlen : mask.length = f.rows.length)
    (i j : Nat) (hj : j < f.cols.length) :
    (((applyOne mask f kv).rows.getD i []).getD j Cell.na)
      = if mask.getD i (some false) = some true
           ∧ (f.cols.getD j ("", Dtype.obj)).1 = kv.1
        then kv.2
        else ((f.rows.getD i []).getD j Cell.na) := by
  cases hcol : colIdx f kv.1 with
  | none =>
    have hne := colIdx_none_name hcol j hj
    rw [applyOne, hcol]
    rw [if_neg (fun hc => hne hc.2)]
  | some jc =>
    have hname := colIdx_name hcol
    have hjc : jc < f.cols.length := colIdx_lt hcol
    rw [applyOne, hcol]
    by_cases hi : i < f.rows.length
    · have hil : i < mask.length := by omega
      have hzi : (f.rows.zip mask)[i]? = some ((f.rows[i]), (mask[i])) := by
        rw [List.getElem?_zip_eq_some]
        exact ⟨List.getElem?_eq_getElem hi, List.getElem?_eq_getElem hil⟩
      have hrow : f.rows[i] ∈ f.rows := f.rows.getElem_mem hi
      have hrl : j < (f.rows[i]).length := by rw [hwf _ hrow]; exact hj
      have houter : ((f.rows.zip mask).map (fun rm =>
            if rm.2 = some true then rm.1.set jc kv.2 else rm.1)).getD i []
          = (if mask[i] = some true then (f.rows[i]).set jc kv.2
             else (f.rows[i])) := by
        rw [List.getD_eq_getElem?_getD, List.getElem?_map, hzi]
        rfl
      have hmd : mask.getD i (some false) = mask[i] := by
        rw [List.getD_eq_getElem?_getD, List.getElem?_eq_getElem hil, Option.getD_some]
      have hrhs : f.rows.getD i [] = f.rows[i] := by
        rw [List.getD_eq_getElem?_getD, List.getElem?_eq_getElem hi, Option.getD_some]
      rw [houter]
      by_cases hm : mask[i] = some true
      · rw [if_pos hm]
        by_cases hjj : j = jc
        · subst hjj
          have hv : ((f.rows[i]).set j kv.2).getD j Cell.na = kv.2 := by
            rw [List.getD_eq_getElem?_getD,
                List.getElem?_eq_getElem (by simpa using hrl)]
            simp
          rw [hv, if_pos ⟨by rw [hmd]; exact hm, hname⟩]
        · have hset : ((f.rows[i]).set jc kv.2).getD j Cell.na
              = (f.rows[i]).getD j Cell.na := by
            rw [List.getD_eq_getElem?_getD, List.getD_eq_getElem?_getD,
                List.getElem?_set_ne (fun h => hjj h.symm)]
          have hnej : (f.cols.getD j ("", Dtype.obj)).1 ≠ kv.1 := by
            intro he
            have h2 := colIdx_of_name hnodup hj he
            rw [hcol] at h2
            injection h2 with h3
            exact hjj h3.symm
          rw [hset, if_neg (fun hc => hnej hc.2), hrhs]
      · rw [if_neg hm, if_neg (fun hc => hm (by rw [hmd] at hc; exact hc.1)), hrhs]
    · have hmge : mask.length ≤ i := by omega
      have hrge : f.rows.length ≤ i := by omega
      have hl1 : (((f.rows.zip mask).map (fun rm =>
            if rm.2 = some true then rm.1.set jc kv.2 else rm.1)).getD i []) = [] := by
        rw [List.getD_eq_getElem?_getD, List.getElem?_eq_none]
        · rfl
        · rw [List.length_map, List.length_zip]
          omega
      have hc2 : mask.getD i (some false) = some false := by
        rw [List.getD_eq_getElem?_getD, List.getElem?_eq_none hmge]
        rfl
      have hrhs : f.rows.getD i [] = [] := by
        rw [List.getD_eq_getElem?_getD, List.getElem?_eq_none hrge]
        rfl
      rw [hl1, if_neg (fun hc => by rw [hc2] at hc; exact absurd hc.1 (by decide)), hrhs]

theorem applyUpdates_cols (mask : List (Option Bool)) (us : List (String × Cell))
    (f : Frame) : (applyUpdates mask us f).cols = f.cols := by
  induction us generalizing f with
  | nil => rfl
  | cons kv rest ih =>
    show (applyUpdates mask rest (applyOne mask f kv)).cols = f.cols
    rw [ih, applyOne_cols]

theorem applyUpdates_rows_length (mask : List (Option Bool)) (us : List (String × Cell))
    (f : Frame) (hlen : mask.length = f.rows.length) :
    (applyUpdates mask us f).rows.length = f.rows.length := by
  induction us generalizing f with
  | nil => rfl
  | cons kv rest ih =>
    show (applyUpdates mask rest (applyOne mask f kv)).rows.length = f.rows.length
    rw [ih _ (by rw [applyOne_rows_length mask f kv hlen]; exact hlen),
        applyOne_rows_length mask f kv hlen]

theorem applyUpdates_WF {mask : List (Option Bool)} {us : List (String × Cell)}
    {f : Frame} (hwf : f.WF) : (applyUpdates mask us f).WF := by
  induction us generalizing f with
  | nil => exact hwf
  | cons kv rest ih =>
    show (applyUpdates mask rest (applyOne mask f kv)).WF
    exact ih (applyOne_WF hwf)

theorem lookupD_cons (l : List (String × Cell)) (k : String) (v : Cell) (n : String) :
    lookupD ((k, v) :: l) n = if k = n then some v else lookupD l n := by
  by_cases h : k = n <;> simp [lookupD, List.find?_cons, h]

theorem lookupD_not_mem {l : List (String × Cell)} {n : String}
    (h : n ∉ l.map (fun kv => kv.1)) : lookupD l n = none := by
  unfold lookupD
  rw [List.find?_eq_none.mpr]
  · rfl
  · intro x hx
    simp only [decide_eq_true_eq]
    intro he
    exact h (he ▸ List.mem_map_of_mem _ hx)

theorem applyUpdates_cell (us : List (String × Cell)) (mask : List (Option Bool))
    (f : Frame) (hkeys : (us.map (fun kv => kv.1)).Nodup)
    (hnodup : (names f).Nodup) (hwf : f.WF) (hlen : mask.length = f.rows.length)
    (i j : Nat) (hj : j < f.cols.length) :
    (((applyUpdates mask us f).rows.getD i []).getD j Cell.na)
      = if mask.getD i (some false) = some true
           ∧ (lookupD us ((f.cols.getD j ("", Dtype.obj)).1)).isSome
        then (lookupD us ((f.cols.getD j ("", Dtype.obj)).1)).getD Cell.na
        else ((f.rows.getD i []).getD j Cell.na) := by
  induction us generalizing f with
  | nil =>
    simp [applyUpdates, lookupD]
  | cons kv rest ih =>
    have hcols := applyOne_cols mask f kv
    have hnames : names (applyOne mask f kv) = names f := by
      unfold names
      rw [hcols]
    have hlen' : mask.length = (applyOne mask f kv).rows.length := by
      rw [applyOne_rows_length mask f kv hlen]
      exact hlen
    have hj' : j < (applyOne mask f kv).cols.length := by rw [hcols]; exact hj
    have hstep : applyUpdates mask (kv :: rest) f
        = applyUpdates mask rest (applyOne mask f kv) := rfl
    rw [hstep]
    have hrec := ih (applyOne mask f kv) (List.nodup_cons.mp hkeys).2
      (by rw [hnames]; exact hnodup) (applyOne_WF hwf) hlen' hj'
    rw [hrec]
    have hgd : (applyOne mask f kv).cols.getD j ("", Dtype.obj)
        = f.cols.getD j ("", Dtype.obj) := by rw [hcols]
    rw [hgd]
    rw [applyOne_cell mask f kv hnodup hwf hlen i j hj]
    have hk : ((kv.1, kv.2) :: rest) = kv :: rest := by rfl
    by_cases hname : (f.cols.getD j ("", Dtype.obj)).1 = kv.1
    · have hrest : lookupD rest (f.cols.getD j ("", Dtype.obj)).1 = none := by
        apply lookupD_not_mem
        rw [hname]
        exact (List.nodup_cons.mp hkeys).1
      have hcons : lookupD (kv :: rest) (f.cols.getD j ("", Dtype.obj)).1 = some kv.2 := by
        rw [← hk, lookupD_cons, if_pos hname.symm]
      rw [hcons, hrest]
      by_cases hm : mask.getD i (some false) = some true
      · simp only [List.getD_eq_getElem?_getD] at hm hname
        simp [hm, hname]
      · simp only [List.getD_eq_getElem?_getD] at hm
        simp [hm]
    · have hcons : lookupD (kv :: rest) (f.cols.getD j ("", Dtype.obj)).1
          = lookupD rest (f.cols.getD j ("", Dtype.obj)).1 := by
        rw [← hk, lookupD_cons, if_neg (fun h => hname h.symm)]
      have hinner : (if mask.getD i (some false) = some true
              ∧ (f.cols.getD j ("", Dtype.obj)).1 = kv.1
            then kv.2 else ((f.rows.getD i []).getD j Cell.na))
          = ((f.rows.getD i []).getD j Cell.na) := if_neg (fun hc => hname hc.2)
      rw [hcons, hinner]

theorem anyMask_found {l : List (Option Bool)} (hs : ∀ x ∈ l, x ≠ none)
    (ht : some true ∈ l) : anyMaskBuiltin l = Except.ok true := by
  induction l with
  | nil => cases ht
  | cons a t ih =>
    cases a with
    | none => exact absurd rfl (hs none (List.mem_cons_self _ _))
    | some b =>
      cases b with
      | true => rfl
      | false =>
        have ht' : some true ∈ t := by
          rcases List.mem_cons.mp ht with h | h
          · exact absurd h (by decide)
          · exact h
        exact ih (fun x hx => hs x (List.mem_cons_of_mem _ hx)) ht'

theorem update_customer_found (data : Frame) (id : Int)
    (updates : List (String × Cell)) (jid : Nat)
    (hcol : colIdx data "Customer ID" = some jid)
    (hany : anyMaskBuiltin ((getColD data jid).map (fun c => maskVal c id))
        = Except.ok true)
    (hnone : ((getColD data jid).map (fun c => maskVal c id)).any (fun x => x.isNone)
        = false) :
    update_customer data id updates
      = ("Customer with ID " ++ toString id ++ " updated successfully",
         some (applyUpdates ((getColD data jid).map (fun c => maskVal c id)) updates data),
         applyUpdates ((getColD data jid).map (fun c => maskVal c id)) updates data) := by
  unfold update_customer
  rw [hcol]
  simp [hany, hnone]

/-- C8: on a table of integer `Customer ID`s containing the given id,
`update_customer` reports success and both returns and saves a table
with the same columns and row count in which exactly the cells of
id-matching rows under columns named in `updates` are overwritten with
the mapped value; keys of `updates` naming no column are silently
ignored (they bind no column, so no cell changes), and every cell of
every non-matching row and of every column not named in `updates` keeps
its previous value. -/
theorem update_overwrites_named_only (data : Frame) (id : Int)
    (updates : List (String × Cell)) (jid : Nat)
    (hwf : data.WF) (hnodup : (names data).Nodup)
    (hcol : colIdx data "Customer ID" = some jid)
    (hints : ∀ c ∈ getColD data jid, ∃ k, c = Cell.int k)
    (hfound : Cell.int id ∈ getColD data jid)
    (hkeys : (updates.map (fun kv => kv.1)).Nodup) :
    ∃ newData,
      update_customer data id updates
        = ("Customer with ID " ++ toString id ++ " updated successfully",
           some newData, newData)
      ∧ newData.cols = data.cols
      ∧ newData.rows.length = data.rows.length
      ∧ (∀ i j, j < data.cols.length →
          ((newData.rows.getD i []).getD j Cell.na)
            = if (data.rows.getD i []).getD jid Cell.na = Cell.int id
                 ∧ (lookupD updates ((data.cols.getD j ("", Dtype.obj)).1)).isSome
              then (lookupD updates ((data.cols.getD j ("", Dtype.obj)).1)).getD Cell.na
              else ((data.rows.getD i []).getD j Cell.na)) := by
  have hlen : ((getColD data jid).map (fun c => maskVal c id)).length
      = data.rows.length := by
    simp [getColD]
  have hnonone : ∀ x ∈ (getColD data jid).map (fun c => maskVal c id), x ≠ none := by
    intro x hx
    rcases List.mem_map.mp hx with ⟨c, hc, rfl⟩
    rcases hints c hc with ⟨k, rfl⟩
    simp [maskVal]
  have htrue : some true ∈ (getColD data jid).map (fun c => maskVal c id) := by
    have := List.mem_map_of_mem (fun c => maskVal c id) hfound
    simpa [maskVal] using this
  have hany := anyMask_found hnonone htrue
  have hnone : ((getColD data jid).map (fun c => maskVal c id)).any (fun x => x.isNone)
      = false := by
    rw [List.any_eq_false]
    intro x hx
    have := hnonone x hx
    cases x with
    | none => exact absurd rfl this
    | some b => simp
  have hmaskD : ∀ i,
      (((getColD data jid).map (fun c => maskVal c id)).getD i (some false) = some true)
        ↔ ((data.rows.getD i []).getD jid Cell.na = Cell.int id) := by
    intro i
    by_cases hi : i < data.rows.length
    · have hgl : i < (getColD data jid).length := by
        simpa [getColD] using hi
      have h1 : ((getColD data jid).map (fun c => maskVal c id)).getD i (some false)
          = maskVal ((getColD data jid)[i]) id := by
        rw [List.getD_eq_getElem?_getD, List.getElem?_map, List.getElem?_eq_getElem hgl]
        rfl
      have h2 : (getColD data jid)[i] = (data.rows[i]).getD jid Cell.na := by
        simp [getColD]
      have h3 : data.rows.getD i [] = data.rows[i] := by
        rw [List.getD_eq_getElem?_getD, List.getElem?_eq_getElem hi, Option.getD_some]
      rw [h1, h2, h3]
      rcases hints _ (h2 ▸ (getColD data jid).getElem_mem hgl) with ⟨k, hk⟩
      rw [hk]
      simp [maskVal]
    · have hge : data.rows.length ≤ i := by omega
      have hmge : ((getColD data jid).map (fun c => maskVal c id)).length ≤ i := by
        omega
      rw [List.getD_eq_getElem?_getD, List.getElem?_eq_none hmge]
      rw [List.getD_eq_getElem?_getD data.rows, List.getElem?_eq_none hge]
      simp
  refine ⟨applyUpdates ((getColD data jid).map (fun c => maskVal c id)) updates data,
    update_customer_found data id updates jid hcol hany hnone,
    applyUpdates_cols _ _ _, applyUpdates_rows_length _ _ _ hlen, ?_⟩
  intro i j hj
  rw [applyUpdates_cell updates ((getColD data jid).map (fun c => maskVal c id)) data
      hkeys hnodup hwf hlen i j hj]
  exact if_congr (and_congr_left' (hmaskD i)) rfl rfl

/-- C8 witness. -/
theorem update_overwrites_named_only_witness :
    ∃ newData,
      update_customer scen_t1 1 [("Email", Cell.str "z"), ("Bogus", Cell.str "w")]
        = ("Customer with ID " ++ toString (1 : Int) ++ " updated successfully",
           some newData, newData) := by
  obtain ⟨nd, h1, _⟩ := update_overwrites_named_only scen_t1 1
    [("Email", Cell.str "z"), ("Bogus", Cell.str "w")] 0
    (by
      intro r hr
      have he : scen_t1.rows
          = [[Cell.int 1, Cell.str "A", Cell.str "B", Cell.str "a@b.c",
              Cell.str "p1", Cell.str "Active", Cell.float 10]] := by decide
      rw [he] at hr
      simp at hr
      subst hr
      decide)
    (by decide) (by decide)
    (by
      intro c hc
      have he : getColD scen_t1 0 = [Cell.int 1] := by decide
      rw [he] at hc
      simp at hc
      exact ⟨1, hc⟩)
    (by decide) (by decide)
  exact ⟨nd, h1⟩

/-! ## Claims C6 and C10 — machinery for the legacy `Name` split -/

theorem rowVal_nil_row (ns : List String) (n : String) : rowVal ns [] n = Cell.na := by
  unfold rowVal
  cases h : ns.findIdx? (fun m => m = n) <;> simp

theorem rowVal_cons (m : String) (ns : List String) (c : Cell) (r : List Cell)
    (n : String) : rowVal (m :: ns) (c :: r) n = if m = n then c else rowVal ns r n := by
  by_cases h : m = n
  · unfold rowVal
    simp [h]
  · unfold rowVal
    rw [List.findIdx?_cons, if_neg (by simpa using h), if_neg h,
        List.findIdx?_start_succ]
    cases h2 : ns.findIdx? (fun m => decide (m = n)) 0 <;> simp [h2]

theorem rowVal_filter (q : String → Bool) (ns : List String) (r : List Cell)
    (n : String) (hq : q n = true) :
    rowVal (ns.filter q) (((ns.zip r).filter (fun x => q x.1)).map (fun x => x.2)) n
      = rowVal ns r n := by
  induction ns generalizing r with
  | nil => rfl
  | cons m ns ih =>
    cases r with
    | nil => simp [rowVal_nil_row]
    | cons c r =>
      by_cases hm : q m
      · simp only [List.filter_cons, List.zip_cons_cons, hm, if_true, List.map_cons]
        rw [rowVal_cons, rowVal_cons]
        by_cases hmn : m = n
        · rw [if_pos hmn, if_pos hmn]
        · rw [if_neg hmn, if_neg hmn]
          exact ih r
      · have hmn : m ≠ n := by
          intro h
          rw [h] at hm
          exact hm hq
        have hm' : q m = false := by simpa using hm
        simp only [List.filter_cons, List.zip_cons_cons, hm', Bool.false_eq_true,
          if_false]
        rw [rowVal_cons, if_neg hmn]
        exact ih r

theorem rowVal_append_self (ns : List String) (r : List Cell) (n : String) (c : Cell)
    (hn : n ∉ ns) (hlen : r.length = ns.length) :
    rowVal (ns ++ [n]) (r ++ [c]) n = c := by
  induction ns generalizing r with
  | nil =>
    have : r = [] := List.length_eq_zero.mp hlen
    subst this
    simp [rowVal_cons]
  | cons m ns ih =>
    cases r with
    | nil => simp at hlen
    | cons c0 r =>
      have hmn : m ≠ n := fun h => hn (h ▸ List.mem_cons_self m ns)
      rw [List.cons_append, List.cons_append, rowVal_cons, if_neg hmn]
      exact ih r (fun h => hn (List.mem_cons_of_mem _ h)) (by simpa using hlen)

theorem rowVal_append_other (ns : List String) (r : List Cell) (n nx : String)
    (c : Cell) (hne : nx ≠ n) (hlen : r.length = ns.length) :
    rowVal (ns ++ [nx]) (r ++ [c]) n = rowVal ns r n := by
  induction ns generalizing r with
  | nil =>
    have : r = [] := List.length_eq_zero.mp hlen
    subst this
    simp [rowVal_cons, rowVal, hne]
  | cons m ns ih =>
    cases r with
    | nil => simp at hlen
    | cons c0 r =>
      rw [List.cons_append, List.cons_append, rowVal_cons, rowVal_cons]
      by_cases hmn : m = n
      · rw [if_pos hmn, if_pos hmn]
      · rw [if_neg hmn, if_neg hmn]
        exact ih r (by simpa using hlen)

theorem set_getD_self {α : Type} {d : α} {l : List α} {j : Nat} (h : j < l.length) :
    l.set j (l.getD j d) = l := by
  induction l generalizing j with
  | nil => simp at h
  | cons a t ih =>
    cases j with
    | zero => rfl
    | succ j =>
      simp only [List.set_cons_succ, List.getD_cons_succ]
      rw [ih (by simpa using h)]

theorem colIdx_none_iff {f : Frame} {n : String} :
    colIdx f n = none ↔ n ∉ names f := by
  unfold colIdx
  rw [List.findIdx?_eq_none_iff]
  constructor
  · intro h hmem
    simpa using h n hmem
  · intro h x hx
    simp only [decide_eq_false_iff_not]
    intro he
    exact h (he ▸ hx)

theorem colIdx_names_getElem {f : Frame} {n : String} {j : Nat}
    (h : colIdx f n = some j) :
    ∃ hj : j < (names f).length, (names f)[j] = n := by
  unfold colIdx at h
  rcases List.findIdx?_eq_some_iff_getElem.mp h with ⟨hj, hp, _⟩
  exact ⟨hj, by simpa using hp⟩

theorem names_setColAt (f : Frame) (j : Nat) (d : Dtype) (cells : List Cell)
    (hj : j < f.cols.length) : names (setColAt f j d cells) = names f := by
  show (f.cols.set j ((f.cols.getD j ("", Dtype.obj)).1, d)).map (fun c => c.1)
      = f.cols.map (fun c => c.1)
  rw [List.map_set]
  show (f.cols.map (fun c => c.1)).set j (f.cols.getD j ("", Dtype.obj)).1
      = f.cols.map (fun c => c.1)
  have hj' : j < (f.cols.map (fun c => c.1)).length := by simpa using hj
  have e : (f.cols.getD j ("", Dtype.obj)).1
      = (f.cols.map (fun c => c.1)).getD j "" := by
    rw [List.getD_eq_getElem?_getD f.cols, List.getElem?_eq_getElem hj,
        List.getD_eq_getElem?_getD, List.getElem?_map, List.getElem?_eq_getElem hj]
    rfl
  rw [e, set_getD_self hj']

theorem setOrAppend_names (f : Frame) (nm : String) (cells : List Cell) :
    names (setOrAppendColObj f nm cells)
      = (match colIdx f nm with
         | some _ => names f
         | none => names f ++ [nm]) := by
  cases h : colIdx f nm with
  | some j =>
    unfold setOrAppendColObj
    rw [h]
    exact names_setColAt f j Dtype.obj cells (colIdx_lt h)
  | none =>
    unfold setOrAppendColObj
    rw [h]
    simp [appendCol, names]

theorem setOrAppend_rows (f : Frame) (nm : String) (cells : List Cell) :
    (setOrAppendColObj f nm cells).rows
      = (f.rows.zip cells).map (fun rc =>
          match colIdx f nm with
          | some j => rc.1.set j rc.2
          | none => rc.1 ++ [rc.2]) := by
  cases h : colIdx f nm with
  | some j =>
    unfold setOrAppendColObj setColAt
    rw [h]
  | none =>
    unfold setOrAppendColObj appendCol
    rw [h]

theorem rowVal_op_self (f : Frame) (nm : String) (r : List Cell) (c : Cell)
    (hr : r.length = (names f).length) :
    rowVal (match colIdx f nm with | some _ => names f | none => names f ++ [nm])
      (match colIdx f nm with | some j => r.set j c | none => r ++ [c]) nm = c := by
  cases h : colIdx f nm with
  | some jset =>
    rcases colIdx_names_getElem h with ⟨hjs, _⟩
    unfold rowVal
    unfold colIdx at h
    rw [h]
    have hb : jset < (r.set jset c).length := by
      rw [List.length_set]
      omega
    show (r.set jset c).getD jset Cell.na = c
    rw [List.getD_eq_getElem?_getD, List.getElem?_eq_getElem hb, Option.getD_some]
    exact List.getElem_set_self hb
  | none =>
    exact rowVal_append_self _ _ _ _ (colIdx_none_iff.mp h) hr

theorem rowVal_op_other (f : Frame) (nm : String) (r : List Cell) (c : Cell)
    (n : String) (hne : nm ≠ n) (hr : r.length = (names f).length) :
    rowVal (match colIdx f nm with | some _ => names f | none => names f ++ [nm])
      (match colIdx f nm with | some j => r.set j c | none => r ++ [c]) n
      = rowVal (names f) r n := by
  cases h : colIdx f nm with
  | some jset =>
    rcases colIdx_names_getElem h with ⟨hjs, hns⟩
    unfold rowVal
    cases h2 : (names f).findIdx? (fun m => m = n) with
    | none => rfl
    | some j2 =>
      rcases List.findIdx?_eq_some_iff_getElem.mp h2 with ⟨hj2, hp2, _⟩
      have hne2 : jset ≠ j2 := by
        intro he
        apply hne
        rw [← hns]
        subst he
        simpa using hp2
      show (r.set jset c).getD j2 Cell.na = r.getD j2 Cell.na
      rw [List.getD_eq_getElem?_getD, List.getD_eq_getElem?_getD,
          List.getElem?_set_ne hne2]
  | none =>
    exact rowVal_append_other _ _ _ _ _ hne hr

theorem names_dropColsBy (p : String → Bool) (f : Frame) :
    names (dropColsBy p f) = (names f).filter (fun n => !p n) := by
  unfold names dropColsBy
  rw [List.filter_map]
  rfl

theorem getColD_eq_rowVal (f : Frame) (n : String) (j : Nat)
    (h : colIdx f n = some j) :
    getColD f j = f.rows.map (fun r => rowVal (names f) r n) := by
  unfold getColD
  apply List.map_congr_left
  intro r _
  unfold rowVal
  unfold colIdx at h
  rw [h]

theorem zip_self_map {α β : Type} (l : List α) (h : α → β) :
    l.zip (l.map h) = l.map (fun a => (a, h a)) := by
  induction l with
  | nil => rfl
  | cons a t ih => simp [ih]

theorem nameStage_split (f : Frame) (j : Nat)
    (hwf : f.WF)
    (hname : colIdx f "Name" = some j)
    (habs : colIdx f "First Name" = none ∨ colIdx f "Last Name" = none)
    (hobj : (f.cols.getD j ("", Dtype.obj)).2 = Dtype.obj) :
    ∃ g, nameStage f = Except.ok g
      ∧ colIdx g "Name" = none
      ∧ (∃ jf, colIdx g "First Name" = some jf
           ∧ getColD g jf = (getColD f j).map splitCellFirst)
      ∧ (∃ jl, colIdx g "Last Name" = some jl
           ∧ getColD g jl = (getColD f j).map splitCellLast) := by
  have hlnames : (names f).length = f.cols.length := by simp [names]
  have hrl : ∀ r ∈ f.rows, r.length = (names f).length := by
    intro r hr
    rw [hwf r hr, hlnames]
  have hcells1 : (getColD f j).map splitCellFirst
      = f.rows.map (fun r => splitCellFirst (r.getD j Cell.na)) := by
    simp [getColD]
  have hcells2 : (getColD f j).map splitCellLast
      = f.rows.map (fun r => splitCellLast (r.getD j Cell.na)) := by
    simp [getColD]
  have hg0rows : (setOrAppendColObj f "First Name" ((getColD f j).map splitCellFirst)).rows
      = f.rows.map (fun r =>
          match colIdx f "First Name" with
          | some j0 => r.set j0 (splitCellFirst (r.getD j Cell.na))
          | none => r ++ [splitCellFirst (r.getD j Cell.na)]) := by
    rw [setOrAppend_rows, hcells1, zip_self_map, List.map_map]
    rfl
  have hg0names : names (setOrAppendColObj f "First Name" ((getColD f j).map splitCellFirst))
      = (match colIdx f "First Name" with
         | some _ => names f
         | none => names f ++ ["First Name"]) := setOrAppend_names f _ _
  have hg0len : ∀ r ∈ f.rows,
      (match colIdx f "First Name" with
       | some j0 => r.set j0 (splitCellFirst (r.getD j Cell.na))
       | none => r ++ [splitCellFirst (r.getD j Cell.na)]).length
      = (match colIdx f "First Name" with
         | some _ => names f
         | none => names f ++ ["First Name"]).length := by
    intro r hr
    cases hc : colIdx f "First Name" <;> simp [hrl r hr]
  -- abbreviations
  set g0 := setOrAppendColObj f "First Name" ((getColD f j).map splitCellFirst) with hg0
  set g1 := setOrAppendColObj g0 "Last Name" ((getColD f j).map splitCellLast) with hg1
  set g := dropColsBy (fun n => n = "Name") g1 with hg
  have hg1rows : g1.rows
      = f.rows.map (fun r =>
          match colIdx g0 "Last Name" with
          | some j1 =>
            (match colIdx f "First Name" with
             | some j0 => r.set j0 (splitCellFirst (r.getD j Cell.na))
             | none => r ++ [splitCellFirst (r.getD j Cell.na)]).set j1
              (splitCellLast (r.getD j Cell.na))
          | none =>
            (match colIdx f "First Name" with
             | some j0 => r.set j0 (splitCellFirst (r.getD j Cell.na))
             | none => r ++ [splitCellFirst (r.getD j Cell.na)])
              ++ [splitCellLast (r.getD j Cell.na)]) := by
    rw [hg1, setOrAppend_rows, hg0rows, hcells2, List.zip_map', List.map_map]
    rfl
  have hg1names : names g1
      = (match colIdx g0 "Last Name" with
         | some _ => names g0
         | none => names g0 ++ ["Last Name"]) := setOrAppend_names g0 _ _
  have hstage : nameStage f = Except.ok g := by
    unfold nameStage
    simp only [hname]
    rw [if_pos (by rcases habs with h | h <;> simp [h]), if_pos hobj]
  have hFmem0 : "First Name" ∈ names g0 := by
    rw [hg0names]
    cases hc : colIdx f "First Name" with
    | some j0 =>
      rcases colIdx_names_getElem hc with ⟨hj0, hn0⟩
      exact hn0 ▸ List.getElem_mem hj0
    | none => exact List.mem_append_right _ (List.mem_singleton.mpr rfl)
  have hFmem1 : "First Name" ∈ names g1 := by
    rw [hg1names]
    cases hc : colIdx g0 "Last Name" with
    | some j1 => exact hFmem0
    | none => exact List.mem_append_left _ hFmem0
  have hLmem1 : "Last Name" ∈ names g1 := by
    rw [hg1names]
    cases hc : colIdx g0 "Last Name" with
    | some j1 =>
      rcases colIdx_names_getElem hc with ⟨hj1, hn1⟩
      exact hn1 ▸ List.getElem_mem hj1
    | none => exact List.mem_append_right _ (List.mem_singleton.mpr rfl)
  have hFmem : "First Name" ∈ names g := by
    rw [hg, names_dropColsBy]
    rw [List.mem_filter]
    exact ⟨hFmem1, by decide⟩
  have hLmem : "Last Name" ∈ names g := by
    rw [hg, names_dropColsBy]
    rw [List.mem_filter]
    exact ⟨hLmem1, by decide⟩
  have hNone : colIdx g "Name" = none := by
    rw [colIdx_none_iff]
    intro hmem
    rw [hg, names_dropColsBy, List.mem_filter] at hmem
    have := hmem.2
    simp at this
  have hgrows : g.rows = g1.rows.map (fun r2 =>
      (((names g1).zip r2).filter (fun x => !(decide (x.1 = "Name")))).map
        (fun x => x.2)) := by
    rw [hg]
    rfl
  obtain ⟨jf, hjf⟩ : ∃ jf, colIdx g "First Name" = some jf := by
    cases hc : colIdx g "First Name" with
    | none => exact absurd (colIdx_none_iff.mp hc) (by simpa using hFmem)
    | some jf => exact ⟨jf, rfl⟩
  obtain ⟨jl, hjl⟩ : ∃ jl, colIdx g "Last Name" = some jl := by
    cases hc : colIdx g "Last Name" with
    | none => exact absurd (colIdx_none_iff.mp hc) (by simpa using hLmem)
    | some jl => exact ⟨jl, rfl⟩
  refine ⟨g, hstage, hNone, ⟨jf, hjf, ?_⟩, ⟨jl, hjl, ?_⟩⟩
  · rw [getColD_eq_rowVal g "First Name" jf hjf, hgrows, hg1rows, hcells1,
        List.map_map, List.map_map]
    apply List.map_congr_left
    intro r hr
    show rowVal (names g)
        ((((names g1).zip _).filter (fun x => !(decide (x.1 = "Name")))).map
          (fun x => x.2)) "First Name"
      = splitCellFirst (r.getD j Cell.na)
    rw [hg, names_dropColsBy]
    rw [rowVal_filter (fun n => !(decide (n = "Name"))) (names g1) _ "First Name"
      (by decide)]
    rw [hg1names]
    rw [rowVal_op_other g0 "Last Name" _ _ "First Name" (by decide)
      (by rw [hg0rows] at *; rw [hg0names]; exact hg0len r hr)]
    rw [hg0names]
    exact rowVal_op_self f "First Name" r _ (hrl r hr)
  · rw [getColD_eq_rowVal g "Last Name" jl hjl, hgrows, hg1rows, hcells2,
        List.map_map, List.map_map]
    apply List.map_congr_left
    intro r hr
    show rowVal (names g)
        ((((names g1).zip _).filter (fun x => !(decide (x.1 = "Name")))).map
          (fun x => x.2)) "Last Name"
      = splitCellLast (r.getD j Cell.na)
    rw [hg, names_dropColsBy]
    rw [rowVal_filter (fun n => !(decide (n = "Name"))) (names g1) _ "Last Name"
      (by decide)]
    rw [hg1names]
    exact rowVal_op_self g0 "Last Name" _ _
      (by rw [hg0rows] at *; rw [hg0names]; exact hg0len r hr)

/-- C6 (counterexample): for stored data with a `Name` column and
neither `First Name` nor `Last Name`, the split does *not* happen for
every value: when every `Name` field is numeric, `read_csv` infers an
`int64` column, `.str.split` raises `AttributeError`, `load_data`'s
catch-all fires, and the whole load returns the *empty* declared table —
no row with First Name `"123"`, Last Name `""` exists, contrary to the
claim. -/
theorem load_numeric_name_yields_empty :
    load_data (some numericNameStore) = emptyDeclaredFrame
    ∧ (load_data (some numericNameStore)).rows = [] := by
  exact ⟨by decide, by decide⟩

/-- C6 (amended): when the loaded data has a `Name` column read as
textual (`object`) and neither `First Name` nor `Last Name`, the legacy
stage splits each `Name` cell on the first space — `First Name` is the
part before the first space, `Last Name` the remainder (the empty
string when there is no space) — and the `Name` column is discarded;
concretely, loading a file whose `Name` column holds `"Jane Doe"` and
`"Prince"` yields First Name `"Jane"`, `"Prince"` and Last Name
`"Doe"`, `""`, with no `Name` column.  (When every `Name` field is
numeric the column is not textual and load instead returns the empty
declared table — `load_numeric_name_yields_empty`.) -/
theorem load_name_split (f : Frame) (j : Nat)
    (hwf : f.WF)
    (hname : colIdx f "Name" = some j)
    (hfn : colIdx f "First Name" = none)
    (hln : colIdx f "Last Name" = none)
    (hobj : (f.cols.getD j ("", Dtype.obj)).2 = Dtype.obj) :
    (∃ g, nameStage f = Except.ok g
      ∧ colIdx g "Name" = none
      ∧ (∃ jf, colIdx g "First Name" = some jf
           ∧ getColD g jf = (getColD f j).map splitCellFirst)
      ∧ (∃ jl, colIdx g "Last Name" = some jl
           ∧ getColD g jl = (getColD f j).map splitCellLast))
    ∧ (∀ s, splitCellFirst (Cell.str s) = Cell.str (splitFirstSpace s).1
         ∧ splitCellLast (Cell.str s) = Cell.str (splitFirstSpace s).2)
    ∧ colIdx (load_data (some nameSplitStore)) "First Name" = some 0
    ∧ getColD (load_data (some nameSplitStore)) 0
        = [Cell.str "Jane", Cell.str "Prince"]
    ∧ colIdx (load_data (some nameSplitStore)) "Last Name" = some 1
    ∧ getColD (load_data (some nameSplitStore)) 1
        = [Cell.str "Doe", Cell.str ""]
    ∧ colIdx (load_data (some nameSplitStore)) "Name" = none := by
  refine ⟨nameStage_split f j hwf hname (Or.inl hfn) hobj,
    fun s => ⟨rfl, rfl⟩, by decide, by decide, by decide, by decide, by decide⟩

/-- C6 witness. -/
theorem load_name_split_witness :
    ∃ g, nameStage { cols := [("Name", Dtype.obj)], rows := [[Cell.str "Ann Lee"]] }
        = Except.ok g
      ∧ colIdx g "Name" = none
      ∧ (∃ jf, colIdx g "First Name" = some jf
           ∧ getColD g jf
             = (getColD { cols := [("Name", Dtype.obj)],
                          rows := [[Cell.str "Ann Lee"]] } 0).map splitCellFirst)
      ∧ (∃ jl, colIdx g "Last Name" = some jl
           ∧ getColD g jl
             = (getColD { cols := [("Name", Dtype.obj)],
                          rows := [[Cell.str "Ann Lee"]] } 0).map splitCellLast) :=
  (load_name_split { cols := [("Name", Dtype.obj)], rows := [[Cell.str "Ann Lee"]] } 0
    (by
      intro r hr
      simp only [List.mem_singleton] at hr
      subst hr
      decide)
    (by decide) (by decide) (by decide) (by decide)).1

/-- C10 (counterexample): with a `Name` column present and `Last Name`
absent the claim says the split always runs (overwriting `First Name`)
and `Name` is dropped; but when every `Name` field is numeric the
column is read as `int64`, `.str.split` raises, and `load_data` returns
the empty declared table instead — nothing is split or overwritten. -/
theorem load_numeric_name_overwrite_empty :
    load_data (some numericNameOverwriteStore) = emptyDeclaredFrame
    ∧ (load_data (some numericNameOverwriteStore)).rows = [] := by
  exact ⟨by decide, by decide⟩

/-- C10 (amended): when the loaded data has a textual (`object`) `Name`
column and at least one of `First Name`/`Last Name` is absent, the
split runs and *overwrites* both columns with the split of `Name` —
in particular an existing `First Name` column loses its old values —
and `Name` is dropped; when both are present no split runs but `Name`
is still dropped; concretely, loading `Name`=`"Jane Doe"` next to
`First Name`=`"Old"` yields First Name `"Jane"` (the `"Old"` value is
overwritten) and Last Name `"Doe"`.  (When every `Name` value is
numeric and a split would run, load instead returns the empty declared
table — `load_numeric_name_overwrite_empty`.) -/
theorem name_column_overwrite_and_drop :
    (∀ f j, f.WF → colIdx f "Name" = some j →
      (colIdx f "First Name" = none ∨ colIdx f "Last Name" = none) →
      (f.cols.getD j ("", Dtype.obj)).2 = Dtype.obj →
      ∃ g, nameStage f = Except.ok g
        ∧ colIdx g "Name" = none
        ∧ (∃ jf, colIdx g "First Name" = some jf
             ∧ getColD g jf = (getColD f j).map splitCellFirst)
        ∧ (∃ jl, colIdx g "Last Name" = some jl
             ∧ getColD g jl = (getColD f j).map splitCellLast))
    ∧ (∀ f j, colIdx f "Name" = some j →
        colIdx f "First Name" ≠ none → colIdx f "Last Name" ≠ none →
        nameStage f = Except.ok (dropColsBy (fun n => n = "Name") f))
    ∧ colIdx (load_data (some nameOverwriteStore)) "First Name" = some 0
    ∧ getColD (load_data (some nameOverwriteStore)) 0 = [Cell.str "Jane"]
    ∧ colIdx (load_data (some nameOverwriteStore)) "Last Name" = some 1
    ∧ getColD (load_data (some nameOverwriteStore)) 1 = [Cell.str "Doe"]
    ∧ colIdx (load_data (some nameOverwriteStore)) "Name" = none := by
  refine ⟨fun f j hwf hname habs hobj => nameStage_split f j hwf hname habs hobj,
    ?_, by decide, by decide, by decide, by decide, by decide⟩
  intro f j hname hfn hln
  obtain ⟨jf0, hfn'⟩ := Option.ne_none_iff_exists'.mp hfn
  obtain ⟨jl0, hln'⟩ := Option.ne_none_iff_exists'.mp hln
  unfold nameStage
  simp only [hname]
  rw [if_neg (by simp [hfn', hln'])]

/-- C10 witness. -/
theorem name_column_overwrite_and_drop_witness :
    ∃ g, nameStage
        { cols := [("Name", Dtype.obj), ("First Name", Dtype.obj)],
          rows := [[Cell.str "Ann Lee", Cell.str "Old"]] }
        = Except.ok g
      ∧ colIdx g "Name" = none
      ∧ (∃ jf, colIdx g "First Name" = some jf
           ∧ getColD g jf
             = (getColD { cols := [("Name", Dtype.obj), ("First Name", Dtype.obj)],
                          rows := [[Cell.str "Ann Lee", Cell.str "Old"]] } 0).map
                 splitCellFirst)
      ∧ (∃ jl, colIdx g "Last Name" = some jl
           ∧ getColD g jl
             = (getColD { cols := [("Name", Dtype.obj), ("First Name", Dtype.obj)],
                          rows := [[Cell.str "Ann Lee", Cell.str "Old"]] } 0).map
                 splitCellLast) :=
  name_column_overwrite_and_drop.1
    { cols := [("Name", Dtype.obj), ("First Name", Dtype.obj)],
      rows := [[Cell.str "Ann Lee", Cell.str "Old"]] } 0
    (by
      intro r hr
      simp only [List.mem_singleton] at hr
      subst hr
      decide)
    (by decide) (Or.inr (by decide)) (by decide)

/-! ## Claim C1 — the loading invariant, helper lemmas -/

theorem coerceCol_some_length {d : Dtype} :
    ∀ {cells cells' : List Cell}, coerceCol d cells = some cells'
      → cells'.length = cells.length := by
  intro cells
  induction cells with
  | nil =>
    intro cells' h
    simp only [coerceCol, Option.some.injEq] at h
    subst h
    rfl
  | cons c cs ih =>
    intro cells' h
    unfold coerceCol at h
    cases h1 : coerceCell d c with
    | none => rw [h1] at h; simp at h
    | some c2 =>
      rw [h1] at h
      cases h2 : coerceCol d cs with
      | none => rw [h2] at h; simp at h
      | some cs2 =>
        rw [h2] at h
        simp only [Option.some.injEq] at h
        subst h
        simp [ih h2]

theorem zip_map_fst {α β γ : Type} (g : α → γ) :
    ∀ (l : List α) (l2 : List β), l2.length = l.length →
      (l.zip l2).map (fun rc => g rc.1) = l.map g := by
  intro l
  induction l with
  | nil => intro l2 h; rfl
  | cons a t ih =>
    intro l2 h
    cases l2 with
    | nil => simp at h
    | cons b t2 =>
      simp only [List.zip_cons_cons, List.map_cons]
      rw [ih t2 (by simpa using h)]

theorem findIdx?_append_left {l l' : List String} {p : String → Bool} {j : Nat}
    (h : l.findIdx? p = some j) : (l ++ l').findIdx? p = some j := by
  rw [List.findIdx?_append, h]
  rfl

theorem findIdx?_append_self {l : List String} {n : String} (h : n ∉ l) :
    (l ++ [n]).findIdx? (fun m => m = n) = some l.length := by
  rw [List.findIdx?_append]
  have h1 : l.findIdx? (fun m => m = n) = none := by
    rw [List.findIdx?_eq_none_iff]
    intro x hx
    simp only [decide_eq_false_iff_not]
    intro he
    exact h (he ▸ hx)
  rw [h1]
  simp

theorem getColD_length (f : Frame) (j : Nat) :
    (getColD f j).length = f.rows.length := by
  simp [getColD]

theorem ensureCol_eq_append {f : Frame} {cd : String × Dtype}
    (hc : colIdx f cd.1 = none) :
    ensureCol f cd = appendCol f cd.1 cd.2 (List.replicate f.rows.length Cell.na) := by
  unfold ensureCol
  rw [hc]

theorem ensureCol_eq_set_ok {f : Frame} {cd : String × Dtype} {j : Nat}
    {cs : List Cell} (hc : colIdx f cd.1 = some j)
    (hco : coerceCol cd.2 (getColD f j) = some cs) :
    ensureCol f cd = setColAt f j cd.2 cs := by
  unfold ensureCol
  simp only [hc, hco]

theorem ensureCol_eq_set_fail {f : Frame} {cd : String × Dtype} {j : Nat}
    (hc : colIdx f cd.1 = some j)
    (hco : coerceCol cd.2 (getColD f j) = none) :
    ensureCol f cd = setColAt f j cd.2 (List.replicate f.rows.length Cell.na) := by
  unfold ensureCol
  simp only [hc, hco]

theorem setColAt_WF {f : Frame} {j : Nat} {d : Dtype} {cs : List Cell}
    (hwf : f.WF) : (setColAt f j d cs).WF := by
  intro r hr
  simp only [setColAt, List.mem_map] at hr
  rcases hr with ⟨rc, hrc, rfl⟩
  have h1 : rc.1 ∈ f.rows := (List.of_mem_zip hrc).1
  simp [setColAt, hwf _ h1]

theorem appendCol_WF {f : Frame} {n : String} {d : Dtype} {cs : List Cell}
    (hwf : f.WF) : (appendCol f n d cs).WF := by
  intro r hr
  simp only [appendCol, List.mem_map] at hr
  rcases hr with ⟨rc, hrc, rfl⟩
  have h1 : rc.1 ∈ f.rows := (List.of_mem_zip hrc).1
  simp [appendCol, hwf _ h1]

theorem ensureCol_WF {f : Frame} {cd : String × Dtype} (hwf : f.WF) :
    (ensureCol f cd).WF := by
  cases hc : colIdx f cd.1 with
  | none => rw [ensureCol_eq_append hc]; exact appendCol_WF hwf
  | some j =>
    cases hco : coerceCol cd.2 (getColD f j) with
    | some cs => rw [ensureCol_eq_set_ok hc hco]; exact setColAt_WF hwf
    | none => rw [ensureCol_eq_set_fail hc hco]; exact setColAt_WF hwf

theorem ensureCol_rows_length {f : Frame} {cd : String × Dtype} :
    (ensureCol f cd).rows.length = f.rows.length := by
  cases hc : colIdx f cd.1 with
  | none =>
    rw [ensureCol_eq_append hc]
    simp [appendCol]
  | some j =>
    cases hco : coerceCol cd.2 (getColD f j) with
    | some cs =>
      rw [ensureCol_eq_set_ok hc hco]
      simp [setColAt, coerceCol_some_length hco, getColD_length]
    | none =>
      rw [ensureCol_eq_set_fail hc hco]
      simp [setColAt]

theorem ensureCol_names {f : Frame} {cd : String × Dtype} :
    names (ensureCol f cd) = names f
      ∨ names (ensureCol f cd) = names f ++ [cd.1] := by
  cases hc : colIdx f cd.1 with
  | none =>
    right
    rw [ensureCol_eq_append hc]
    simp [appendCol, names]
  | some j =>
    cases hco : coerceCol cd.2 (getColD f j) with
    | some cs =>
      rw [ensureCol_eq_set_ok hc hco]
      exact Or.inl (names_setColAt f j cd.2 cs (colIdx_lt hc))
    | none =>
      rw [ensureCol_eq_set_fail hc hco]
      exact Or.inl (names_setColAt f j cd.2 _ (colIdx_lt hc))

theorem appendCol_names (f : Frame) (n : String) (d : Dtype) (cs : List Cell) :
    names (appendCol f n d cs) = names f ++ [n] := by
  simp [appendCol, names]

theorem appendCol_rows_eq {f : Frame} {n : String} {d : Dtype} :
    (appendCol f n d (List.replicate f.rows.length Cell.na)).rows
      = f.rows.map (fun r => r ++ [Cell.na]) := by
  show (f.rows.zip (List.replicate f.rows.length Cell.na)).map _ = _
  rw [← List.map_const' f.rows Cell.na, zip_self_map, List.map_map]
  rfl

theorem ensureCol_dtype_self (f : Frame) (c : String) (d : Dtype) :
    ∃ jj, colIdx (ensureCol f (c, d)) c = some jj
      ∧ ((ensureCol f (c, d)).cols.getD jj ("", Dtype.obj)).2 = d := by
  cases hc : colIdx f c with
  | none =>
    rw [ensureCol_eq_append hc]
    refine ⟨f.cols.length, ?_, ?_⟩
    · unfold colIdx
      rw [appendCol_names]
      rw [findIdx?_append_self (colIdx_none_iff.mp hc)]
      simp [names]
    · show ((f.cols ++ [(c, d)]).getD f.cols.length ("", Dtype.obj)).2 = d
      rw [List.getD_eq_getElem?_getD, List.getElem?_append_right (le_refl _)]
      simp
  | some j =>
    have hlt := colIdx_lt hc
    have key : ∀ cs : List Cell, colIdx (setColAt f j d cs) c = some j
        ∧ ((setColAt f j d cs).cols.getD j ("", Dtype.obj)).2 = d := by
      intro cs
      constructor
      · unfold colIdx
        rw [names_setColAt f j d cs hlt]
        exact hc
      · show ((f.cols.set j ((f.cols.getD j ("", Dtype.obj)).1, d)).getD j
            ("", Dtype.obj)).2 = d
        rw [List.getD_eq_getElem?_getD,
            List.getElem?_eq_getElem (by simpa using hlt)]
        simp
    cases hco : coerceCol d (getColD f j) with
    | some cs =>
      rw [ensureCol_eq_set_ok hc hco]
      exact ⟨j, key cs⟩
    | none =>
      rw [ensureCol_eq_set_fail hc hco]
      exact ⟨j, key _⟩

theorem ensureCol_dtype_preserve (f : Frame) (cd' : String × Dtype) (c : String)
    (d : Dtype) (jj : Nat) (hne : cd'.1 ≠ c)
    (hjj : colIdx f c = some jj)
    (hd : (f.cols.getD jj ("", Dtype.obj)).2 = d) :
    colIdx (ensureCol f cd') c = some jj
      ∧ ((ensureCol f cd').cols.getD jj ("", Dtype.obj)).2 = d := by
  cases hc : colIdx f cd'.1 with
  | none =>
    rw [ensureCol_eq_append hc]
    constructor
    · unfold colIdx
      rw [appendCol_names]
      exact findIdx?_append_left hjj
    · show ((f.cols ++ [(cd'.1, cd'.2)]).getD jj ("", Dtype.obj)).2 = d
      rw [List.getD_eq_getElem?_getD, List.getElem?_append_left (colIdx_lt hjj),
          ← List.getD_eq_getElem?_getD]
      exact hd
  | some j' =>
    have hj'lt := colIdx_lt hc
    have hnej : j' ≠ jj := by
      intro he
      apply hne
      have h1 := colIdx_name hc
      have h2 := colIdx_name hjj
      rw [← h1, he, h2]
    have key : ∀ cs : List Cell, colIdx (setColAt f j' cd'.2 cs) c = some jj
        ∧ ((setColAt f j' cd'.2 cs).cols.getD jj ("", Dtype.obj)).2 = d := by
      intro cs
      constructor
      · unfold colIdx
        rw [names_setColAt f j' cd'.2 cs hj'lt]
        exact hjj
      · show ((f.cols.set j' ((f.cols.getD j' ("", Dtype.obj)).1, cd'.2)).getD jj
            ("", Dtype.obj)).2 = d
        rw [List.getD_eq_getElem?_getD, List.getElem?_set_ne hnej,
            ← List.getD_eq_getElem?_getD]
        exact hd
    cases hco : coerceCol cd'.2 (getColD f j') with
    | some cs =>
      rw [ensureCol_eq_set_ok hc hco]
      exact key cs
    | none =>
      rw [ensureCol_eq_set_fail hc hco]
      exact key _

theorem foldl_dtype_preserve (L : List (String × Dtype)) (f : Frame) (c : String)
    (d : Dtype) (jj : Nat) (hni : ∀ cd ∈ L, cd.1 ≠ c)
    (hjj : colIdx f c = some jj)
    (hd : (f.cols.getD jj ("", Dtype.obj)).2 = d) :
    colIdx (L.foldl ensureCol f) c = some jj
      ∧ ((L.foldl ensureCol f).cols.getD jj ("", Dtype.obj)).2 = d := by
  induction L generalizing f with
  | nil => exact ⟨hjj, hd⟩
  | cons cd' rest ih =>
    show colIdx (rest.foldl ensureCol (ensureCol f cd')) c = some jj ∧ _
    obtain ⟨h1, h2⟩ := ensureCol_dtype_preserve f cd' c d jj
      (hni cd' (List.mem_cons_self _ _)) hjj hd
    exact ih (ensureCol f cd') (fun x hx => hni x (List.mem_cons_of_mem _ hx)) h1 h2

theorem foldl_dtype (L : List (String × Dtype)) (f : Frame) (c : String) (d : Dtype)
    (hmem : (c, d) ∈ L) (hnodup : (L.map (fun cd => cd.1)).Nodup) :
    ∃ jj, colIdx (L.foldl ensureCol f) c = some jj
      ∧ ((L.foldl ensureCol f).cols.getD jj ("", Dtype.obj)).2 = d := by
  induction L generalizing f with
  | nil => cases hmem
  | cons cd' rest ih =>
    rcases List.mem_cons.mp hmem with he | hm
    · obtain ⟨jj, h1, h2⟩ := ensureCol_dtype_self f c d
      show ∃ jj, colIdx (rest.foldl ensureCol (ensureCol f cd')) c = some jj ∧ _
      rw [← he]
      have hkey : ∀ cd ∈ rest, cd.1 ≠ c := by
        intro cd hcd heq
        have h3 : cd'.1 ∉ rest.map (fun cd => cd.1) := (List.nodup_cons.mp hnodup).1
        apply h3
        rw [← he]
        show c ∈ rest.map (fun cd => cd.1)
        exact heq ▸ List.mem_map_of_mem _ hcd
      obtain ⟨hp1, hp2⟩ := foldl_dtype_preserve rest (ensureCol f (c, d)) c d jj hkey h1 h2
      exact ⟨jj, hp1, hp2⟩
    · exact ih (ensureCol f cd') hm (List.nodup_cons.mp hnodup).2

theorem ensureCol_preserve_none {f : Frame} {cd' : String × Dtype} {c : String}
    (hne : cd'.1 ≠ c) (hn : colIdx f c = none) :
    colIdx (ensureCol f cd') c = none := by
  rw [colIdx_none_iff] at hn ⊢
  intro hmem
  rcases @ensureCol_names f cd' with he | he
  · rw [he] at hmem
    exact hn hmem
  · rw [he] at hmem
    rcases List.mem_append.mp hmem with h | h
    · exact hn h
    · exact hne (List.mem_singleton.mp h).symm

theorem ensureCol_preserve_col {f : Frame} {cd' : String × Dtype} {c : String}
    {jj : Nat} (hwf : f.WF) (hne : cd'.1 ≠ c) (hjj : colIdx f c = some jj) :
    colIdx (ensureCol f cd') c = some jj
      ∧ getColD (ensureCol f cd') jj = getColD f jj := by
  cases hc : colIdx f cd'.1 with
  | none =>
    rw [ensureCol_eq_append hc]
    constructor
    · unfold colIdx
      rw [appendCol_names]
      exact findIdx?_append_left hjj
    · show (appendCol f cd'.1 cd'.2 (List.replicate f.rows.length Cell.na)).rows.map
          (fun r => r.getD jj Cell.na) = getColD f jj
      rw [appendCol_rows_eq, List.map_map]
      apply List.map_congr_left
      intro r hr
      show (r ++ [Cell.na]).getD jj Cell.na = r.getD jj Cell.na
      have hb : jj < r.length := by
        rw [hwf r hr]
        exact colIdx_lt hjj
      rw [List.getD_eq_getElem?_getD, List.getElem?_append_left hb,
          ← List.getD_eq_getElem?_getD]
  | some j' =>
    have hnej : j' ≠ jj := by
      intro he
      apply hne
      have h1 := colIdx_name hc
      have h2 := colIdx_name hjj
      rw [← h1, he, h2]
    have key : ∀ cs : List Cell, cs.length = f.rows.length →
        colIdx (setColAt f j' cd'.2 cs) c = some jj
          ∧ getColD (setColAt f j' cd'.2 cs) jj = getColD f jj := by
      intro cs hlen
      constructor
      · unfold colIdx
        rw [names_setColAt f j' cd'.2 cs (colIdx_lt hc)]
        exact hjj
      · show ((f.rows.zip cs).map (fun rc => rc.1.set j' rc.2)).map
            (fun r => r.getD jj Cell.na) = getColD f jj
        rw [List.map_map]
        have hpt : ((f.rows.zip cs).map
              (fun rc => (rc.1.set j' rc.2).getD jj Cell.na))
            = (f.rows.zip cs).map (fun rc => rc.1.getD jj Cell.na) := by
          apply List.map_congr_left
          intro rc _
          show (rc.1.set j' rc.2).getD jj Cell.na = rc.1.getD jj Cell.na
          rw [List.getD_eq_getElem?_getD, List.getElem?_set_ne hnej,
              ← List.getD_eq_getElem?_getD]
        show (f.rows.zip cs).map ((fun r => r.getD jj Cell.na)
            ∘ (fun rc : List Cell × Cell => rc.1.set j' rc.2)) = getColD f jj
        rw [show ((fun r => r.getD jj Cell.na)
            ∘ (fun rc : List Cell × Cell => rc.1.set j' rc.2))
            = (fun rc : List Cell × Cell => (rc.1.set j' rc.2).getD jj Cell.na)
          from rfl, hpt]
        exact zip_map_fst (fun r => r.getD jj Cell.na) f.rows cs hlen
    cases hco : coerceCol cd'.2 (getColD f j') with
    | some cs =>
      rw [ensureCol_eq_set_ok hc hco]
      exact key cs (by rw [coerceCol_some_length hco, getColD_length])
    | none =>
      rw [ensureCol_eq_set_fail hc hco]
      exact key _ (by simp)

theorem foldl_ensure_WF (L : List (String × Dtype)) (f : Frame) (hwf : f.WF) :
    (L.foldl ensureCol f).WF := by
  induction L generalizing f with
  | nil => exact hwf
  | cons cd rest ih =>
    show (rest.foldl ensureCol (ensureCol f cd)).WF
    exact ih _ (ensureCol_WF hwf)

theorem foldl_preserve_none (L : List (String × Dtype)) (f : Frame) (c : String)
    (hni : ∀ cd ∈ L, cd.1 ≠ c) (hn : colIdx f c = none) :
    colIdx (L.foldl ensureCol f) c = none := by
  induction L generalizing f with
  | nil => exact hn
  | cons cd rest ih =>
    show colIdx (rest.foldl ensureCol (ensureCol f cd)) c = none
    exact ih _ (fun x hx => hni x (List.mem_cons_of_mem _ hx))
      (ensureCol_preserve_none (hni cd (List.mem_cons_self _ _)) hn)

theorem foldl_preserve_col (L : List (String × Dtype)) (f : Frame) (c : String)
    (jj : Nat) (hwf : f.WF) (hni : ∀ cd ∈ L, cd.1 ≠ c)
    (hjj : colIdx f c = some jj) :
    colIdx (L.foldl ensureCol f) c = some jj
      ∧ getColD (L.foldl ensureCol f) jj = getColD f jj := by
  induction L generalizing f with
  | nil => exact ⟨hjj, rfl⟩
  | cons cd rest ih =>
    show colIdx (rest.foldl ensureCol (ensureCol f cd)) c = some jj ∧ _
    obtain ⟨h1, h2⟩ := ensureCol_preserve_col hwf (hni cd (List.mem_cons_self _ _)) hjj
    obtain ⟨h3, h4⟩ := ih (ensureCol f cd) (ensureCol_WF hwf)
      (fun x hx => hni x (List.mem_cons_of_mem _ hx)) h1
    exact ⟨h3, h4.trans h2⟩

theorem normalize_missing_generic (l1 l2 : List (String × Dtype)) (c : String)
    (d : Dtype) (f : Frame) (hwf : f.WF) (hnone : colIdx f c = none)
    (h1 : ∀ cd ∈ l1, cd.1 ≠ c) (h2 : ∀ cd ∈ l2, cd.1 ≠ c) :
    ∃ jj, colIdx ((l1 ++ (c, d) :: l2).foldl ensureCol f) c = some jj
      ∧ ∀ cell ∈ getColD ((l1 ++ (c, d) :: l2).foldl ensureCol f) jj,
          cell = Cell.na := by
  rw [List.foldl_append]
  have hwf1 : (l1.foldl ensureCol f).WF := foldl_ensure_WF l1 f hwf
  have hn1 : colIdx (l1.foldl ensureCol f) c = none :=
    foldl_preserve_none l1 f c h1 hnone
  show ∃ jj, colIdx (l2.foldl ensureCol (ensureCol (l1.foldl ensureCol f) (c, d))) c
      = some jj
    ∧ ∀ cell ∈ getColD (l2.foldl ensureCol
          (ensureCol (l1.foldl ensureCol f) (c, d))) jj, cell = Cell.na
  have hstep := @ensureCol_eq_append (l1.foldl ensureCol f) (c, d) hn1
  have hj2 : colIdx (ensureCol (l1.foldl ensureCol f) (c, d)) c
      = some (names (l1.foldl ensureCol f)).length := by
    rw [hstep]
    unfold colIdx
    rw [appendCol_names]
    exact findIdx?_append_self (colIdx_none_iff.mp hn1)
  have hvals : ∀ cell ∈ getColD (ensureCol (l1.foldl ensureCol f) (c, d))
      ((names (l1.foldl ensureCol f)).length), cell = Cell.na := by
    rw [hstep]
    intro cell hcell
    unfold getColD at hcell
    rw [appendCol_rows_eq, List.map_map] at hcell
    rcases List.mem_map.mp hcell with ⟨r, hr, rfl⟩
    show ((r ++ [Cell.na]).getD (names (l1.foldl ensureCol f)).length Cell.na)
        = Cell.na
    have hrlen : r.length = (names (l1.foldl ensureCol f)).length := by
      rw [hwf1 r hr]
      simp [names]
    rw [List.getD_eq_getElem?_getD,
        List.getElem?_append_right (by omega)]
    rw [hrlen]
    simp
  obtain ⟨hpc, hpv⟩ := foldl_preserve_col l2 _ c _ (ensureCol_WF hwf1) h2 hj2
  refine ⟨(names (l1.foldl ensureCol f)).length, hpc, ?_⟩
  rw [hpv]
  exact hvals

theorem normalize_coerce_fail_generic (l1 l2 : List (String × Dtype)) (c : String)
    (d : Dtype) (f : Frame) (j : Nat) (hwf : f.WF)
    (hj : colIdx f c = some j)
    (hfail : coerceCol d (getColD f j) = none)
    (h1 : ∀ cd ∈ l1, cd.1 ≠ c) (h2 : ∀ cd ∈ l2, cd.1 ≠ c) :
    colIdx ((l1 ++ (c, d) :: l2).foldl ensureCol f) c = some j
      ∧ ∀ cell ∈ getColD ((l1 ++ (c, d) :: l2).foldl ensureCol f) j,
          cell = Cell.na := by
  rw [List.foldl_append]
  have hwf1 : (l1.foldl ensureCol f).WF := foldl_ensure_WF l1 f hwf
  obtain ⟨hc1, hv1⟩ := foldl_preserve_col l1 f c j hwf h1 hj
  show colIdx (l2.foldl ensureCol (ensureCol (l1.foldl ensureCol f) (c, d))) c = some j
    ∧ ∀ cell ∈ getColD (l2.foldl ensureCol
          (ensureCol (l1.foldl ensureCol f) (c, d))) j, cell = Cell.na
  have hfail1 : coerceCol d (getColD (l1.foldl ensureCol f) j) = none := by
    rw [hv1]
    exact hfail
  have hstep := @ensureCol_eq_set_fail (l1.foldl ensureCol f) (c, d) j hc1 hfail1
  have hj2 : colIdx (ensureCol (l1.foldl ensureCol f) (c, d)) c = some j := by
    rw [hstep]
    unfold colIdx
    rw [names_setColAt _ _ _ _ (colIdx_lt hc1)]
    exact hc1
  have hvals : ∀ cell ∈ getColD (ensureCol (l1.foldl ensureCol f) (c, d)) j,
      cell = Cell.na := by
    rw [hstep]
    intro cell hcell
    unfold getColD at hcell
    simp only [setColAt, List.map_map, List.mem_map] at hcell
    rcases hcell with ⟨rc, hrc, rfl⟩
    show ((rc.1.set j rc.2).getD j Cell.na) = Cell.na
    have hr1 : rc.1 ∈ (l1.foldl ensureCol f).rows := (List.of_mem_zip hrc).1
    have hr2 : rc.2 ∈ List.replicate (l1.foldl ensureCol f).rows.length Cell.na :=
      (List.of_mem_zip hrc).2
    have hna : rc.2 = Cell.na := List.eq_of_mem_replicate hr2
    have hb : j < (rc.1.set j rc.2).length := by
      rw [List.length_set, hwf1 rc.1 hr1]
      exact Nat.lt_of_lt_of_le (colIdx_lt hc1) (le_refl _)
    rw [List.getD_eq_getElem?_getD, List.getElem?_eq_getElem hb, Option.getD_some,
        List.getElem_set_self hb]
    exact hna
  obtain ⟨hpc, hpv⟩ := foldl_preserve_col l2 _ c _ (ensureCol_WF hwf1) h2 hj2
  refine ⟨hpc, ?_⟩
  rw [hpv]
  exact hvals

theorem mem_setOrAppend_names {f : Frame} {nm n : String} {cells : List Cell}
    (h : n ∈ names (setOrAppendColObj f nm cells)) : n ∈ names f ∨ n = nm := by
  rw [setOrAppend_names] at h
  cases hc : colIdx f nm with
  | some j =>
    rw [hc] at h
    exact Or.inl h
  | none =>
    rw [hc] at h
    rcases List.mem_append.mp h with h1 | h1
    · exact Or.inl h1
    · exact Or.inr (List.mem_singleton.mp h1)

theorem nameStage_names {f g : Frame} (h : nameStage f = Except.ok g) :
    ∀ n ∈ names g,
      (n ∈ names f ∨ n = "First Name" ∨ n = "Last Name") ∧ n ≠ "Name" := by
  unfold nameStage at h
  cases hc : colIdx f "Name" with
  | none =>
    simp only [hc] at h
    have he : f = g := by simpa using h
    subst he
    intro n hn
    exact ⟨Or.inl hn, fun he2 => (colIdx_none_iff.mp hc) (he2 ▸ hn)⟩
  | some j =>
    simp only [hc] at h
    split at h
    · split at h
      · have he : dropColsBy (fun n => n = "Name")
            (setOrAppendColObj
              (setOrAppendColObj f "First Name" ((getColD f j).map splitCellFirst))
              "Last Name" ((getColD f j).map splitCellLast)) = g := by
          simpa using h
        subst he
        intro n hn
        rw [names_dropColsBy] at hn
        have h1 := List.mem_filter.mp hn
        constructor
        · rcases mem_setOrAppend_names h1.1 with h2 | h2
          · rcases mem_setOrAppend_names h2 with h3 | h3
            · exact Or.inl h3
            · exact Or.inr (Or.inl h3)
          · exact Or.inr (Or.inr h2)
        · have h2 := h1.2
          simp at h2
          exact h2
      · exact absurd h (by simp)
    · have he : dropColsBy (fun n => n = "Name") f = g := by simpa using h
      subst he
      intro n hn
      rw [names_dropColsBy] at hn
      have h1 := List.mem_filter.mp hn
      refine ⟨Or.inl h1.1, ?_⟩
      have h2 := h1.2
      simp at h2
      exact h2

theorem foldl_names_pred (L : List (String × Dtype)) (f : Frame)
    (P : String → Prop) (hf : ∀ n ∈ names f, P n) (hL : ∀ cd ∈ L, P cd.1) :
    ∀ n ∈ names (L.foldl ensureCol f), P n := by
  induction L generalizing f with
  | nil => exact hf
  | cons cd rest ih =>
    show ∀ n ∈ names (rest.foldl ensureCol (ensureCol f cd)), P n
    apply ih
    · intro n hn
      rcases @ensureCol_names f cd with he | he
      · rw [he] at hn
        exact hf n hn
      · rw [he] at hn
        rcases List.mem_append.mp hn with h1 | h1
        · exact hf n h1
        · rw [List.mem_singleton.mp h1]
          exact hL cd (List.mem_cons_self _ _)
    · intro x hx
      exact hL x (List.mem_cons_of_mem _ hx)

theorem getColD_dropEmptyRows_subset (f : Frame) (j : Nat) :
    ∀ cell ∈ getColD (dropEmptyRows f) j, cell ∈ getColD f j := by
  intro cell hc
  unfold getColD dropEmptyRows at hc
  unfold getColD
  rcases List.mem_map.mp hc with ⟨r, hr, rfl⟩
  exact List.mem_map_of_mem _ (List.mem_of_mem_filter hr)

theorem required_split {c : String} {d : Dtype} (hmem : (c, d) ∈ required_columns) :
    ∃ l1 l2, required_columns = l1 ++ (c, d) :: l2
      ∧ (∀ cd ∈ l1, cd.1 ≠ c) ∧ (∀ cd ∈ l2, cd.1 ≠ c) := by
  obtain ⟨l1, l2, he⟩ := List.append_of_mem hmem
  refine ⟨l1, l2, he, ?_, ?_⟩
  all_goals
    have hnodup : (required_columns.map (fun cd => cd.1)).Nodup := by decide
    rw [he, List.map_append, List.map_cons] at hnodup
  · intro cd hcd he2
    have hd := (List.nodup_append.mp hnodup).2.2
    have hm : c ∈ l1.map (fun cd => cd.1) := by
      rw [← he2]
      exact List.mem_map_of_mem _ hcd
    exact hd hm (List.mem_cons_self _ _)
  · intro cd hcd he2
    have h2 := (List.nodup_append.mp hnodup).2.1
    have hm : c ∈ l2.map (fun cd => cd.1) := by
      rw [← he2]
      exact List.mem_map_of_mem _ hcd
    exact (List.nodup_cons.mp h2).1 hm

theorem emptyDeclared_dtype (c : String) (d : Dtype)
    (hmem : (c, d) ∈ required_columns) :
    ∃ jj, colIdx emptyDeclaredFrame c = some jj
      ∧ (emptyDeclaredFrame.cols.getD jj ("", Dtype.obj)).2 = d := by
  unfold required_columns at hmem
  fin_cases hmem
  · exact ⟨0, by decide, by decide⟩
  · exact ⟨1, by decide, by decide⟩
  · exact ⟨2, by decide, by decide⟩
  · exact ⟨3, by decide, by decide⟩
  · exact ⟨4, by decide, by decide⟩
  · exact ⟨5, by decide, by decide⟩
  · exact ⟨6, by decide, by decide⟩

theorem emptyDeclared_names (n : String) (hn : n ∈ names emptyDeclaredFrame) :
    containsSub n "Unnamed:" = false ∧ n ≠ "Name" := by
  have : names emptyDeclaredFrame
      = ["Customer ID", "First Name", "Last Name", "Email", "Phone", "Status",
         "Amount"] := by decide
  rw [this] at hn
  fin_cases hn <;> exact ⟨by decide, by decide⟩

/-- C1 (counterexample): the loaded table's column set does *not* always
equal the declared schema, and extra columns are *not* dropped — the
column loop (l.47-55) only adds/retypes the declared columns and never
removes others, so a stored `Favorite` column survives the load. -/
theorem load_retains_extra_column :
    "Favorite" ∈ names (load_data (some extraColStore))
    ∧ names (load_data (some extraColStore))
        = ["Customer ID", "First Name", "Last Name", "Email", "Phone",
           "Status", "Amount", "Favorite"]
    ∧ names (load_data (some extraColStore))
        ≠ required_columns.map (fun cd => cd.1) := by
  refine ⟨by decide, by decide, by decide⟩

theorem cols_dropEmptyRows (f : Frame) : (dropEmptyRows f).cols = f.cols := rfl

theorem names_dropEmptyRows (f : Frame) : names (dropEmptyRows f) = names f := rfl

theorem colIdx_dropEmptyRows (f : Frame) (n : String) :
    colIdx (dropEmptyRows f) n = colIdx f n := rfl

theorem load_data_eq_empty_of_readerr {s : StoredCSV} {e : Unit}
    (hr : read_csv s = Except.error e) :
    load_data (some s) = emptyDeclaredFrame := by
  unfold load_data
  show (match (read_csv s).bind
        (fun d => nameStage (dropColsBy (fun n => containsSub n "Unnamed:") d)) with
      | Except.error _ => emptyDeclaredFrame
      | Except.ok d0 => dropEmptyRows (normalize_columns d0)) = emptyDeclaredFrame
  rw [hr]
  rfl

theorem load_data_eq_empty_of_stageerr {s : StoredCSV} {d1 : Frame} {e : Unit}
    (hr : read_csv s = Except.ok d1)
    (hx : nameStage (dropColsBy (fun n => containsSub n "Unnamed:") d1)
        = Except.error e) :
    load_data (some s) = emptyDeclaredFrame := by
  unfold load_data
  show (match (read_csv s).bind
        (fun d => nameStage (dropColsBy (fun n => containsSub n "Unnamed:") d)) with
      | Except.error _ => emptyDeclaredFrame
      | Except.ok d0 => dropEmptyRows (normalize_columns d0)) = emptyDeclaredFrame
  rw [hr]
  show (match nameStage (dropColsBy (fun n => containsSub n "Unnamed:") d1) with
        | Except.error _ => emptyDeclaredFrame
        | Except.ok d0 => dropEmptyRows (normalize_columns d0)) = emptyDeclaredFrame
  rw [hx]

theorem load_data_eq_of_stage {s : StoredCSV} {d1 d0 : Frame}
    (hr : read_csv s = Except.ok d1)
    (hx : nameStage (dropColsBy (fun n => containsSub n "Unnamed:") d1)
        = Except.ok d0) :
    load_data (some s) = dropEmptyRows (normalize_columns d0) := by
  unfold load_data
  show (match (read_csv s).bind
        (fun d => nameStage (dropColsBy (fun n => containsSub n "Unnamed:") d)) with
      | Except.error _ => emptyDeclaredFrame
      | Except.ok d2 => dropEmptyRows (normalize_columns d2))
      = dropEmptyRows (normalize_columns d0)
  rw [hr]
  show (match nameStage (dropColsBy (fun n => containsSub n "Unnamed:") d1) with
        | Except.error _ => emptyDeclaredFrame
        | Except.ok d0 => dropEmptyRows (normalize_columns d0))
      = dropEmptyRows (normalize_columns d0)
  rw [hx]

/-- C1 (amended): `load_data` is total — every storage content, including
a missing file and any modelled parse/`.str` failure, yields a table,
never a propagated exception — and
(1) the loaded table always *contains* every declared column with its
    declared dtype (first occurrence);
(2) no loaded column is an `Unnamed:` index artifact or the legacy
    `Name` column (both are dropped), but *other* extra stored columns
    are retained (`load_retains_extra_column`), so the column set does
    not always equal the declared schema exactly;
(3) a declared column absent from the frame reaching the normalization
    loop is created with every value missing (and survives that way into
    the final table);
(4) a declared column whose `astype` coercion fails is replaced by an
    all-missing column (surviving into the final table). -/
theorem load_schema_invariant :
    (∀ input : Option StoredCSV, ∀ c d, (c, d) ∈ required_columns →
      ∃ jj, colIdx (load_data input) c = some jj
        ∧ ((load_data input).cols.getD jj ("", Dtype.obj)).2 = d)
    ∧ (∀ input : Option StoredCSV, ∀ n, n ∈ names (load_data input) →
        containsSub n "Unnamed:" = false ∧ n ≠ "Name")
    ∧ (∀ f : Frame, ∀ c d, (c, d) ∈ required_columns → f.WF →
        colIdx f c = none →
        ∃ jj, colIdx (dropEmptyRows (normalize_columns f)) c = some jj
          ∧ ∀ cell ∈ getColD (dropEmptyRows (normalize_columns f)) jj,
              cell = Cell.na)
    ∧ (∀ f : Frame, ∀ c d, ∀ j : Nat, (c, d) ∈ required_columns → f.WF →
        colIdx f c = some j → coerceCol d (getColD f j) = none →
        colIdx (dropEmptyRows (normalize_columns f)) c = some j
          ∧ ∀ cell ∈ getColD (dropEmptyRows (normalize_columns f)) j,
              cell = Cell.na) := by
  refine ⟨?_, ?_, ?_, ?_⟩
  · intro input c d hmem
    cases input with
    | none => exact emptyDeclared_dtype c d hmem
    | some s =>
      cases hr : read_csv s with
      | error e =>
        rw [load_data_eq_empty_of_readerr hr]
        exact emptyDeclared_dtype c d hmem
      | ok d1 =>
        cases hx : nameStage (dropColsBy (fun n => containsSub n "Unnamed:") d1) with
        | error e =>
          rw [load_data_eq_empty_of_stageerr hr hx]
          exact emptyDeclared_dtype c d hmem
        | ok d0 =>
          rw [load_data_eq_of_stage hr hx]
          obtain ⟨jj, h1, h2⟩ := foldl_dtype required_columns d0 c d hmem (by decide)
          exact ⟨jj, by rw [colIdx_dropEmptyRows]; exact h1,
            by rw [cols_dropEmptyRows]; exact h2⟩
  · intro input n hn
    cases input with
    | none => exact emptyDeclared_names n hn
    | some s =>
      cases hr : read_csv s with
      | error e =>
        rw [load_data_eq_empty_of_readerr hr] at hn
        exact emptyDeclared_names n hn
      | ok d1 =>
        cases hx : nameStage (dropColsBy (fun n => containsSub n "Unnamed:") d1) with
        | error e =>
          rw [load_data_eq_empty_of_stageerr hr hx] at hn
          exact emptyDeclared_names n hn
        | ok d0 =>
          rw [load_data_eq_of_stage hr hx, names_dropEmptyRows] at hn
          have hn2 : n ∈ names (normalize_columns d0) := hn
          refine foldl_names_pred required_columns d0
            (fun n => containsSub n "Unnamed:" = false ∧ n ≠ "Name") ?_ ?_ n hn2
          · intro m hm
            obtain ⟨hmem2, hne⟩ := nameStage_names hx m hm
            refine ⟨?_, hne⟩
            rcases hmem2 with h1 | h1 | h1
            · rw [names_dropColsBy] at h1
              have h2 := (List.mem_filter.mp h1).2
              simpa using h2
            · rw [h1]
              decide
            · rw [h1]
              decide
          · intro cd hcd
            unfold required_columns at hcd
            fin_cases hcd <;> exact ⟨by decide, by decide⟩
  · intro f c d hmem hwf hnone
    obtain ⟨l1, l2, he, hk1, hk2⟩ := required_split hmem
    have hsplit : normalize_columns f = (l1 ++ (c, d) :: l2).foldl ensureCol f := by
      rw [normalize_columns, he]
    obtain ⟨jj, hc2, hv⟩ := normalize_missing_generic l1 l2 c d f hwf hnone hk1 hk2
    rw [hsplit]
    refine ⟨jj, by rw [colIdx_dropEmptyRows]; exact hc2, ?_⟩
    exact fun cell hcell => hv cell (getColD_dropEmptyRows_subset _ _ cell hcell)
  · intro f c d j hmem hwf hj hfail
    obtain ⟨l1, l2, he, hk1, hk2⟩ := required_split hmem
    have hsplit : normalize_columns f = (l1 ++ (c, d) :: l2).foldl ensureCol f := by
      rw [normalize_columns, he]
    obtain ⟨hc2, hv⟩ :=
      normalize_coerce_fail_generic l1 l2 c d f j hwf hj hfail hk1 hk2
    rw [hsplit]
    refine ⟨by rw [colIdx_dropEmptyRows]; exact hc2, ?_⟩
    exact fun cell hcell => hv cell (getColD_dropEmptyRows_subset _ _ cell hcell)

/-- C1 witness. -/
theorem load_schema_invariant_witness :
    ∃ jj, colIdx (load_data none) "Email" = some jj
      ∧ ((load_data none).cols.getD jj ("", Dtype.obj)).2 = Dtype.obj :=
  load_schema_invariant.1 none "Email" Dtype.obj (by decide)

/-! ## C5: `save_data` / `load_data` round trip -/

/-- A digit character is not any fixed non-digit character. -/
theorem isDigit_ne_of {c x : Char} (hx : x.isDigit = false)
    (h : c.isDigit = true) : c ≠ x := by
  intro he
  rw [he, hx] at h
  cases h

/-- On an all-digit token the mantissa parser returns its numeric
value. -/
theorem parseMantissa_digits {l : List Char} (h : isDigits l = true) :
    parseMantissa l = some ((digitsVal l : ℚ)) := by
  have hall : ∀ c ∈ l, c.isDigit = true := by
    have h2 := h
    simp only [isDigits, Bool.and_eq_true, List.all_eq_true] at h2
    exact fun c hc => h2.2 c hc
  have h1 : l.takeWhile (fun c => c ≠ '.') = l :=
    List.takeWhile_eq_self_iff.mpr
      (by simpa using fun c hc => isDigit_ne_of (by decide) (hall c hc))
  have h2 : l.dropWhile (fun c => c ≠ '.') = [] :=
    List.dropWhile_eq_nil_iff.mpr
      (by simpa using fun c hc => isDigit_ne_of (by decide) (hall c hc))
  simp only [parseMantissa, h1, h2, h, if_true]

/-- On an all-digit token the unsigned float parser returns its numeric
value. -/
theorem parseUFloat_digits {l : List Char} (h : isDigits l = true) :
    parseUFloat l = some ((digitsVal l : ℚ)) := by
  have hall : ∀ c ∈ l, c.isDigit = true := by
    have h2 := h
    simp only [isDigits, Bool.and_eq_true, List.all_eq_true] at h2
    exact fun c hc => h2.2 c hc
  have h1 : l.takeWhile (fun c => c ≠ 'e' && c ≠ 'E') = l :=
    List.takeWhile_eq_self_iff.mpr (by
      intro c hc
      have he : c ≠ 'e' := isDigit_ne_of (by decide) (hall c hc)
      have hE : c ≠ 'E' := isDigit_ne_of (by decide) (hall c hc)
      simp [he, hE])
  have h2 : l.dropWhile (fun c => c ≠ 'e' && c ≠ 'E') = [] :=
    List.dropWhile_eq_nil_iff.mpr (by
      intro c hc
      have he : c ≠ 'e' := isDigit_ne_of (by decide) (hall c hc)
      have hE : c ≠ 'E' := isDigit_ne_of (by decide) (hall c hc)
      simp [he, hE])
  simp only [parseUFloat, splitExp, h1, h2]
  exact parseMantissa_digits h

/-- Every token the integer parser accepts, the float parser accepts
with the same value (so a numeric-looking string is never a valid
non-numeric witness). -/
theorem parseFloatTok_of_parseIntTok {l : List Char} {i : Int}
    (h : parseIntTok l = some i) : parseFloatTok l = some ((i : ℚ)) := by
  cases l with
  | nil => simp [parseIntTok] at h
  | cons c r =>
    simp only [parseIntTok] at h
    simp only [parseFloatTok]
    by_cases hc : c = '-'
    · rw [if_pos hc] at h ⊢
      by_cases hr : isDigits r
      · rw [if_pos hr] at h
        have him := Option.some.inj h
        rw [parseUFloat_digits hr]
        show some (-((digitsVal r : ℚ))) = some ((i : ℚ))
        rw [← him]
        push_cast
        ring_nf
      · rw [if_neg hr] at h
        exact absurd h (by simp)
    · rw [if_neg hc] at h ⊢
      by_cases hp : c = '+'
      · rw [if_pos hp] at h ⊢
        by_cases hr : isDigits r
        · rw [if_pos hr] at h
          have him := Option.some.inj h
          rw [parseUFloat_digits hr]
          rw [← him]
          norm_cast
        · rw [if_neg hr] at h
          exact absurd h (by simp)
      · rw [if_neg hp] at h ⊢
        by_cases hr : isDigits (c :: r)
        · rw [if_pos hr] at h
          have him := Option.some.inj h
          rw [parseUFloat_digits hr]
          rw [← him]
          norm_cast
        · rw [if_neg hr] at h
          exact absurd h (by simp)

/-- A list with a counterwitness member is not `all`-true. -/
theorem all_false_of_mem {α : Type} {p : α → Bool} {l : List α} {x : α}
    (hx : x ∈ l) (hpx : p x = false) : l.all p = false := by
  cases hal : l.all p with
  | false => rfl
  | true => exact absurd (List.all_eq_true.mp hal x hx) (by simp [hpx])

/-- A list on which the predicate is everywhere false is not
`any`-true. -/
theorem any_false_of_all {α : Type} {p : α → Bool} {l : List α}
    (h : ∀ x ∈ l, p x = false) : l.any p = false := by
  cases han : l.any p with
  | false => rfl
  | true =>
    obtain ⟨x, hx, hpx⟩ := List.any_eq_true.mp han
    rw [h x hx] at hpx
    cases hpx

/-- A list with a member is not empty. -/
theorem isEmpty_false_of_mem {α : Type} {l : List α} {x : α} (hx : x ∈ l) :
    l.isEmpty = false := by
  cases l with
  | nil => cases hx
  | cons a t => rfl

/-- One non-missing, non-numeric token forces `object` dtype. -/
theorem classifyCol_obj {toks : List SCell} {w : SCell} (hw : w ∈ toks)
    (hna : scIsNa w = false) (hfl : scIsFloat w = false)
    (hint : scIsInt w = false) : classifyCol toks = Dtype.obj := by
  have h0 := isEmpty_false_of_mem hw
  have h1 : toks.all scIsNa = false := all_false_of_mem hw hna
  have h2 : toks.all (fun t => scIsNa t || scIsInt t) = false :=
    all_false_of_mem hw (by rw [hna, hint]; rfl)
  have h3 : toks.all (fun t => scIsNa t || scIsFloat t) = false :=
    all_false_of_mem hw (by rw [hna, hfl]; rfl)
  simp [classifyCol, h0, h1, h2, h3]

/-- A nonempty column of integer tokens with no missing fields is
`int64`. -/
theorem classifyCol_int {toks : List SCell} (hne : toks ≠ [])
    (hall : ∀ t ∈ toks, scIsInt t = true ∧ scIsNa t = false) :
    classifyCol toks = Dtype.int64 := by
  have h0 : toks.isEmpty = false := by
    cases toks with
    | nil => exact absurd rfl hne
    | cons a t => rfl
  obtain ⟨w, hw⟩ : ∃ w, w ∈ toks := by
    cases toks with
    | nil => exact absurd rfl hne
    | cons a t => exact ⟨a, List.mem_cons_self a t⟩
  have h1 : toks.all scIsNa = false := all_false_of_mem hw (hall w hw).2
  have h2 : toks.all (fun t => scIsNa t || scIsInt t) = true :=
    List.all_eq_true.mpr (fun t ht => by rw [(hall t ht).1]; simp)
  have h3 : toks.any scIsNa = false := any_false_of_all (fun t ht => (hall t ht).2)
  simp [classifyCol, h0, h1, h2, h3]

/-- A nonempty column of float tokens with no missing fields and no
integer-literal fields is `float64`. -/
theorem classifyCol_float {toks : List SCell} (hne : toks ≠ [])
    (hall : ∀ t ∈ toks, scIsFloat t = true ∧ scIsNa t = false ∧ scIsInt t = false) :
    classifyCol toks = Dtype.float64 := by
  have h0 : toks.isEmpty = false := by
    cases toks with
    | nil => exact absurd rfl hne
    | cons a t => rfl
  obtain ⟨w, hw⟩ : ∃ w, w ∈ toks := by
    cases toks with
    | nil => exact absurd rfl hne
    | cons a t => exact ⟨a, List.mem_cons_self a t⟩
  have h1 : toks.all scIsNa = false := all_false_of_mem hw (hall w hw).2.1
  have h2 : toks.all (fun t => scIsNa t || scIsInt t) = false :=
    all_false_of_mem hw (by rw [(hall w hw).2.1, (hall w hw).2.2]; rfl)
  have h3 : toks.all (fun t => scIsNa t || scIsFloat t) = true :=
    List.all_eq_true.mpr (fun t ht => by rw [(hall t ht).1, Bool.or_true])
  simp [classifyCol, h0, h1, h2, h3]

/-- A string outside the NA sentinel list fails the `contains` test. -/
theorem contains_naValues_false {s : String} (h : s ∉ naValues) :
    naValues.contains s = false := by
  simpa using h

/-- `to_csv` writes a table of valid customer records as the declared
header plus one token row per record. -/
theorem save_custFrame (cs : List Customer) (hval : ∀ c ∈ cs, validCustomer c) :
    save_data (custFrame cs) = { header := hdr7, rows := cs.map sRow } := by
  have hrows : (cs.map custRow).map (fun r => r.map renderSCell) = cs.map sRow := by
    rw [List.map_map]
    apply List.map_congr_left
    intro c hc
    obtain ⟨h1, h2, h3, h4, h5⟩ := hval c hc
    have e1 : c.firstName ≠ "" := fun he => h1 (by rw [he]; decide)
    have e2 : c.lastName ≠ "" := fun he => h2 (by rw [he]; decide)
    have e3 : c.email ≠ "" := fun he => h3 (by rw [he]; decide)
    have e4 : c.phone ≠ "" := fun he => h4 (by rw [he]; decide)
    have e5 : c.status ≠ "" := fun he => h5 (by rw [he]; decide)
    show (custRow c).map renderSCell = sRow c
    simp [custRow, sRow, renderSCell, e1, e2, e3, e4, e5]
  show StoredCSV.mk (names (custFrame cs))
      ((cs.map custRow).map (fun r => r.map renderSCell)) = StoredCSV.mk hdr7 (cs.map sRow)
  rw [hrows]
  rfl

/-- A textual column whose values avoid the NA sentinels, one of which
is not a float literal, is inferred `object`. -/
theorem classify_txt_col (cs : List Customer) (fld : Customer → String)
    (hv : ∀ c ∈ cs, fld c ∉ naValues)
    (hwit : ∃ c ∈ cs, parseFloatTok (fld c).data = none) :
    classifyCol (cs.map (fun c => SCell.txt (fld c))) = Dtype.obj := by
  obtain ⟨c, hc, hp⟩ := hwit
  apply classifyCol_obj (List.mem_map_of_mem (fun c => SCell.txt (fld c)) hc)
  · show naValues.contains (fld c) = false
    exact contains_naValues_false (hv c hc)
  · show (parseFloatTok (fld c).data).isSome = false
    rw [hp]
    rfl
  · show (parseIntTok (fld c).data).isSome = false
    cases hpi : parseIntTok (fld c).data with
    | none => rfl
    | some i =>
      have := parseFloatTok_of_parseIntTok hpi
      rw [hp] at this
      exact absurd this (by simp)

/-- `read_csv` on a stored table of valid customer records, each textual
column holding a non-numeric value, infers `int64` for the ID, `object`
for the five textual columns and `float64` for the amount, and decodes
every row back to its customer cells. -/
theorem read_csv_customers (cs : List Customer)
    (hval : ∀ c ∈ cs, validCustomer c)
    (hfn : ∃ c ∈ cs, parseFloatTok c.firstName.data = none)
    (hln : ∃ c ∈ cs, parseFloatTok c.lastName.data = none)
    (hem : ∃ c ∈ cs, parseFloatTok c.email.data = none)
    (hph : ∃ c ∈ cs, parseFloatTok c.phone.data = none)
    (hst : ∃ c ∈ cs, parseFloatTok c.status.data = none) :
    read_csv { header := hdr7, rows := cs.map sRow }
      = Except.ok { cols := readCols, rows := cs.map custRow } := by
  have hne : cs ≠ [] := by
    obtain ⟨c, hc, _⟩ := hfn
    exact List.ne_nil_of_mem hc
  have hrag : (cs.map sRow).any (fun r => hdr7.length < r.length) = false :=
    any_false_of_all (fun r hr => by
      obtain ⟨c, hc, he⟩ := List.mem_map.mp hr
      rw [← he]
      simp [sRow, hdr7])
  have hm : mangle hdr7 = hdr7 := by decide
  have hw : (mangle hdr7).length = 7 := by rw [hm]; rfl
  have hpad : (cs.map sRow).map
      (fun r => r ++ List.replicate ((mangle hdr7).length - r.length) SCell.empty)
      = cs.map sRow := by
    rw [List.map_map]
    apply List.map_congr_left
    intro c hc
    show sRow c ++ List.replicate ((mangle hdr7).length - (sRow c).length) SCell.empty
      = sRow c
    rw [hw]
    simp [sRow]
  have hcol0 : (cs.map sRow).map (fun r => r.getD 0 SCell.empty)
      = cs.map (fun c => SCell.intTok c.cid) := by
    rw [List.map_map]
    exact List.map_congr_left (fun c hc => rfl)
  have hcol1 : (cs.map sRow).map (fun r => r.getD 1 SCell.empty)
      = cs.map (fun c => SCell.txt c.firstName) := by
    rw [List.map_map]
    exact List.map_congr_left (fun c hc => rfl)
  have hcol2 : (cs.map sRow).map (fun r => r.getD 2 SCell.empty)
      = cs.map (fun c => SCell.txt c.lastName) := by
    rw [List.map_map]
    exact List.map_congr_left (fun c hc => rfl)
  have hcol3 : (cs.map sRow).map (fun r => r.getD 3 SCell.empty)
      = cs.map (fun c => SCell.txt c.email) := by
    rw [List.map_map]
    exact List.map_congr_left (fun c hc => rfl)
  have hcol4 : (cs.map sRow).map (fun r => r.getD 4 SCell.empty)
      = cs.map (fun c => SCell.txt c.phone) := by
    rw [List.map_map]
    exact List.map_congr_left (fun c hc => rfl)
  have hcol5 : (cs.map sRow).map (fun r => r.getD 5 SCell.empty)
      = cs.map (fun c => SCell.txt c.status) := by
    rw [List.map_map]
    exact List.map_congr_left (fun c hc => rfl)
  have hcol6 : (cs.map sRow).map (fun r => r.getD 6 SCell.empty)
      = cs.map (fun c => SCell.floatTok c.amount) := by
    rw [List.map_map]
    exact List.map_congr_left (fun c hc => rfl)
  have hc0 : classifyCol (cs.map (fun c => SCell.intTok c.cid)) = Dtype.int64 :=
    classifyCol_int (by simpa using hne)
      (fun t ht => by
        obtain ⟨c, hc, he⟩ := List.mem_map.mp ht
        rw [← he]
        exact ⟨rfl, rfl⟩)
  have hc1 : classifyCol (cs.map (fun c => SCell.txt c.firstName)) = Dtype.obj :=
    classify_txt_col cs (fun c => c.firstName) (fun c hc => (hval c hc).1) hfn
  have hc2 : classifyCol (cs.map (fun c => SCell.txt c.lastName)) = Dtype.obj :=
    classify_txt_col cs (fun c => c.lastName) (fun c hc => (hval c hc).2.1) hln
  have hc3 : classifyCol (cs.map (fun c => SCell.txt c.email)) = Dtype.obj :=
    classify_txt_col cs (fun c => c.email) (fun c hc => (hval c hc).2.2.1) hem
  have hc4 : classifyCol (cs.map (fun c => SCell.txt c.phone)) = Dtype.obj :=
    classify_txt_col cs (fun c => c.phone) (fun c hc => (hval c hc).2.2.2.1) hph
  have hc5 : classifyCol (cs.map (fun c => SCell.txt c.status)) = Dtype.obj :=
    classify_txt_col cs (fun c => c.status) (fun c hc => (hval c hc).2.2.2.2) hst
  have hc6 : classifyCol (cs.map (fun c => SCell.floatTok c.amount)) = Dtype.float64 :=
    classifyCol_float (by simpa using hne)
      (fun t ht => by
        obtain ⟨c, hc, he⟩ := List.mem_map.mp ht
        rw [← he]
        exact ⟨rfl, rfl, rfl⟩)
  unfold read_csv
  dsimp only
  rw [hrag]
  simp only [Bool.false_eq_true, if_false]
  rw [hpad, hw]
  have hrange : List.range 7 = [0, 1, 2, 3, 4, 5, 6] := rfl
  rw [hrange]
  simp only [List.map_cons, List.map_nil]
  rw [hcol0, hcol1, hcol2, hcol3, hcol4, hcol5, hcol6,
      hc0, hc1, hc2, hc3, hc4, hc5, hc6, hm]
  have hrows : (cs.map sRow).map (fun r =>
      (r.zip [Dtype.int64, Dtype.obj, Dtype.obj, Dtype.obj, Dtype.obj,
              Dtype.obj, Dtype.float64]).map (fun tc => decodeCell tc.2 tc.1))
      = cs.map custRow := by
    rw [List.map_map]
    apply List.map_congr_left
    intro c hc
    obtain ⟨h1, h2, h3, h4, h5⟩ := hval c hc
    have e1 := contains_naValues_false h1
    have e2 := contains_naValues_false h2
    have e3 := contains_naValues_false h3
    have e4 := contains_naValues_false h4
    have e5 := contains_naValues_false h5
    show ((sRow c).zip [Dtype.int64, Dtype.obj, Dtype.obj, Dtype.obj, Dtype.obj,
              Dtype.obj, Dtype.float64]).map (fun tc => decodeCell tc.2 tc.1)
      = custRow c
    simp [sRow, custRow, decodeCell, e1, e2, e3, e4, e5]
    exact ⟨h1, h2, h3, h4, h5⟩
  rw [hrows]
  rfl

/-- A column of a customer-row table, read off record-wise. -/
theorem getColD_custRows (X : List (String × Dtype)) (cs : List Customer)
    (j : Nat) (g : Customer → Cell) (hg : ∀ c, (custRow c).getD j Cell.na = g c) :
    getColD { cols := X, rows := cs.map custRow } j = cs.map g := by
  unfold getColD
  rw [List.map_map]
  exact List.map_congr_left (fun c hc => hg c)

/-- `astype` is the identity on a column it accepts element-wise. -/
theorem coerceCol_id {d : Dtype} {cells : List Cell}
    (h : ∀ x ∈ cells, coerceCell d x = some x) : coerceCol d cells = some cells := by
  induction cells with
  | nil => rfl
  | cons a t ih =>
    simp only [coerceCol, h a (List.mem_cons_self a t),
      ih (fun x hx => h x (List.mem_cons_of_mem a hx))]

/-- When `astype` accepts a column unchanged, the `required_columns`
loop iteration only rewrites the column's dtype tag. -/
theorem ensureCol_retype (f : Frame) (c : String) (d : Dtype) (j : Nat)
    (hwf : f.WF) (hj : colIdx f c = some j)
    (hco : coerceCol d (getColD f j) = some (getColD f j)) :
    ensureCol f (c, d)
      = { cols := f.cols.set j ((f.cols.getD j ("", Dtype.obj)).1, d),
          rows := f.rows } := by
  rw [ensureCol_eq_set_ok hj hco]
  unfold setColAt
  congr 1
  show (f.rows.zip (f.rows.map (fun r => r.getD j Cell.na))).map
      (fun rc => rc.1.set j rc.2) = f.rows
  rw [zip_self_map, List.map_map]
  have hlen : j < f.cols.length := colIdx_lt hj
  calc f.rows.map (fun r => r.set j (r.getD j Cell.na))
      = f.rows.map (fun r => r) :=
        List.map_congr_left (fun r hr => set_getD_self (by rw [hwf r hr]; exact hlen))
    _ = f.rows := List.map_id _

/-- Dropping `Unnamed:` columns is the identity on a decoded customer
table. -/
theorem dropUnnamed_readFrame (cs : List Customer) :
    dropColsBy (fun n => containsSub n "Unnamed:")
        { cols := readCols, rows := cs.map custRow }
      = { cols := readCols, rows := cs.map custRow } := by
  have hr : (cs.map custRow).map (fun r =>
      (((names ({ cols := readCols, rows := cs.map custRow } : Frame)).zip r).filter
        (fun x => !(containsSub x.1 "Unnamed:"))).map (fun x => x.2))
      = cs.map custRow := by
    rw [List.map_map]
    exact List.map_congr_left (fun c hc => rfl)
  show Frame.mk (readCols.filter (fun c => !(containsSub c.1 "Unnamed:")))
      ((cs.map custRow).map (fun r =>
        (((names ({ cols := readCols, rows := cs.map custRow } : Frame)).zip r).filter
          (fun x => !(containsSub x.1 "Unnamed:"))).map (fun x => x.2)))
      = Frame.mk readCols (cs.map custRow)
  rw [hr]
  rw [show readCols.filter (fun c => !(containsSub c.1 "Unnamed:")) = readCols from by decide]

/-- The legacy `Name` stage passes a decoded customer table through. -/
theorem nameStage_readFrame (cs : List Customer) :
    nameStage { cols := readCols, rows := cs.map custRow }
      = Except.ok { cols := readCols, rows := cs.map custRow } := by
  unfold nameStage
  simp only [show colIdx { cols := readCols, rows := cs.map custRow } "Name"
      = (none : Option Nat) from rfl]

/-- The normalization loop on a decoded customer table retypes
`Customer ID` to the nullable integer dtype and leaves everything else
unchanged. -/
theorem normalize_readFrame (cs : List Customer) :
    normalize_columns { cols := readCols, rows := cs.map custRow }
      = { cols := required_columns, rows := cs.map custRow } := by
  have hwfR : ∀ X : List (String × Dtype), X.length = 7 →
      ({ cols := X, rows := cs.map custRow } : Frame).WF := by
    intro X hX r hr
    obtain ⟨c, hc, he⟩ := List.mem_map.mp hr
    show r.length = X.length
    rw [← he, hX]
    rfl
  have e1 : ensureCol { cols := readCols, rows := cs.map custRow }
      ("Customer ID", Dtype.nullableInt)
      = { cols := required_columns, rows := cs.map custRow } := by
    have hj : colIdx { cols := readCols, rows := cs.map custRow } "Customer ID"
        = some 0 := rfl
    have hcol : getColD { cols := readCols, rows := cs.map custRow } 0
        = cs.map (fun c => Cell.int c.cid) :=
      getColD_custRows _ _ _ _ (fun c => rfl)
    have hco : coerceCol Dtype.nullableInt
        (getColD { cols := readCols, rows := cs.map custRow } 0)
        = some (getColD { cols := readCols, rows := cs.map custRow } 0) := by
      rw [hcol]
      exact coerceCol_id (fun x hx => by
        obtain ⟨c, hc, he⟩ := List.mem_map.mp hx
        rw [← he]
        rfl)
    rw [ensureCol_retype _ _ _ _ (hwfR readCols rfl) hj hco]
    rw [show readCols.set 0 ((readCols.getD 0 ("", Dtype.obj)).1, Dtype.nullableInt)
      = required_columns from by decide]
  have eobj : ∀ (nm : String) (j : Nat),
      colIdx { cols := required_columns, rows := cs.map custRow } nm = some j →
      required_columns.set j
        ((required_columns.getD j ("", Dtype.obj)).1, Dtype.obj) = required_columns →
      ensureCol { cols := required_columns, rows := cs.map custRow } (nm, Dtype.obj)
        = { cols := required_columns, rows := cs.map custRow } := by
    intro nm j hj hset
    have hco : coerceCol Dtype.obj
        (getColD { cols := required_columns, rows := cs.map custRow } j)
        = some (getColD { cols := required_columns, rows := cs.map custRow } j) :=
      coerceCol_id (fun x hx => by cases x <;> rfl)
    rw [ensureCol_retype _ _ _ _ (hwfR required_columns rfl) hj hco, hset]
  have e2 := eobj "First Name" 1 rfl (by decide)
  have e3 := eobj "Last Name" 2 rfl (by decide)
  have e4 := eobj "Email" 3 rfl (by decide)
  have e5 := eobj "Phone" 4 rfl (by decide)
  have e6 := eobj "Status" 5 rfl (by decide)
  have e7 : ensureCol { cols := required_columns, rows := cs.map custRow }
      ("Amount", Dtype.float64)
      = { cols := required_columns, rows := cs.map custRow } := by
    have hj : colIdx { cols := required_columns, rows := cs.map custRow } "Amount"
        = some 6 := rfl
    have hcol : getColD { cols := required_columns, rows := cs.map custRow } 6
        = cs.map (fun c => Cell.float c.amount) :=
      getColD_custRows _ _ _ _ (fun c => rfl)
    have hco : coerceCol Dtype.float64
        (getColD { cols := required_columns, rows := cs.map custRow } 6)
        = some (getColD { cols := required_columns, rows := cs.map custRow } 6) := by
      rw [hcol]
      exact coerceCol_id (fun x hx => by
        obtain ⟨c, hc, he⟩ := List.mem_map.mp hx
        rw [← he]
        rfl)
    rw [ensureCol_retype _ _ _ _ (hwfR required_columns rfl) hj hco]
    rw [show required_columns.set 6
        ((required_columns.getD 6 ("", Dtype.obj)).1, Dtype.float64)
      = required_columns from by decide]
  show List.foldl ensureCol { cols := readCols, rows := cs.map custRow }
      required_columns = _
  rw [show required_columns
    = [("Customer ID", Dtype.nullableInt), ("First Name", Dtype.obj),
       ("Last Name", Dtype.obj), ("Email", Dtype.obj), ("Phone", Dtype.obj),
       ("Status", Dtype.obj), ("Amount", Dtype.float64)] from rfl]
  simp only [List.foldl_cons, List.foldl_nil]
  rw [e1, e2, e3, e4, e5, e6, e7]
  rfl

/-- `dropna(how="all")` keeps every customer row (the ID cell is never
missing). -/
theorem dropEmptyRows_custFrame (cs : List Customer) :
    dropEmptyRows { cols := required_columns, rows := cs.map custRow }
      = { cols := required_columns, rows := cs.map custRow } := by
  unfold dropEmptyRows
  show Frame.mk required_columns
      ((cs.map custRow).filter (fun r => !(r.all (fun c => c == Cell.na))))
      = Frame.mk required_columns (cs.map custRow)
  rw [List.filter_eq_self.mpr]
  intro r hr
  obtain ⟨c, hc, he⟩ := List.mem_map.mp hr
  rw [← he]
  rfl

/-- Refutation of the round trip as claimed: a table of valid records
whose Phone field is the numeric text `"12345"` does not reload equal —
`read_csv` re-infers the written column as integers, so the stored
string field comes back as the integer `12345`. -/
theorem save_load_changes_numeric_text :
    load_data (some (save_data numericPhoneFrame)) ≠ numericPhoneFrame ∧
    getColD numericPhoneFrame 4 = [Cell.str "12345"] ∧
    getColD (load_data (some (save_data numericPhoneFrame))) 4 = [Cell.int 12345] := by
  refine ⟨by decide, rfl, by decide⟩

/-- C5 (amended): save followed by load reproduces a table of valid
customer records exactly (same field values, declared column order and
dtypes) provided each textual column holds at least one value that does
not parse as a number; without that proviso the stored text is
re-inferred as a numeric column and the values come back as numbers
(`save_load_changes_numeric_text`). -/
theorem save_load_roundtrip (cs : List Customer)
    (hval : ∀ c ∈ cs, validCustomer c)
    (hfn : ∃ c ∈ cs, parseFloatTok c.firstName.data = none)
    (hlnm : ∃ c ∈ cs, parseFloatTok c.lastName.data = none)
    (hem : ∃ c ∈ cs, parseFloatTok c.email.data = none)
    (hph : ∃ c ∈ cs, parseFloatTok c.phone.data = none)
    (hst : ∃ c ∈ cs, parseFloatTok c.status.data = none) :
    load_data (some (save_data (custFrame cs))) = custFrame cs := by
  rw [save_custFrame cs hval]
  have hx : nameStage (dropColsBy (fun n => containsSub n "Unnamed:")
        { cols := readCols, rows := cs.map custRow })
      = Except.ok { cols := readCols, rows := cs.map custRow } := by
    rw [dropUnnamed_readFrame]
    exact nameStage_readFrame cs
  rw [load_data_eq_of_stage (read_csv_customers cs hval hfn hlnm hem hph hst) hx]
  rw [normalize_readFrame]
  exact dropEmptyRows_custFrame cs

/-- Witness: a concrete one-record table of a valid, non-numeric
customer round-trips exactly. -/
theorem save_load_roundtrip_witness :
    (∀ c ∈ [sampleCustomer], validCustomer c) ∧
    load_data (some (save_data (custFrame [sampleCustomer])))
      = custFrame [sampleCustomer] := by
  have hv : ∀ c ∈ [sampleCustomer], validCustomer c := by
    intro c hc
    have he : c = sampleCustomer := by simpa using hc
    rw [he]
    exact ⟨by decide, by decide, by decide, by decide, by decide⟩
  refine ⟨hv, save_load_roundtrip [sampleCustomer] hv ?_ ?_ ?_ ?_ ?_⟩
  · exact ⟨sampleCustomer, by decide, by decide⟩
  · exact ⟨sampleCustomer, by decide, by decide⟩
  · exact ⟨sampleCustomer, by decide, by decide⟩
  · exact ⟨sampleCustomer, by decide, by decide⟩
  · exact ⟨sampleCustomer, by decide, by decide⟩
